import Mathlib

/-!
# Verification of the scatter/assemble morph engine

Shallow embedding of the procedural sampling and morph-choreography code of
the repository (`src/utils/math.ts`, `src/components/Foliage.tsx`,
`src/components/SpiralGarland.tsx`, `src/components/Effects.tsx`,
`src/unnamed/part_000`).  Pure numeric code is embedded as Lean functions:
exact GLSL/JS float expressions become expressions over `ℚ` where the source
only uses field operations, and over `ℝ` where the source calls
transcendental functions (`Math.sin`, `Math.pow` with fractional exponents,
`Math.exp`, `normalize`).  The ambient random source (`Math.random()`,
always in `[0,1)`) is abstracted as explicit function arguments, following
the spec's note that random consumption should sit behind an injectable
seam.
-/

/-- A 3-component vector, mirroring `THREE.Vector3` / GLSL `vec3` over an
arbitrary coefficient type. -/
structure Vec3 (α : Type) where
  x : α
  y : α
  z : α
deriving DecidableEq, Repr

/-- Componentwise addition (`a + b` on `THREE.Vector3` / GLSL `vec3`). -/
def Vec3.add {α : Type} [Add α] (a b : Vec3 α) : Vec3 α :=
  ⟨a.x + b.x, a.y + b.y, a.z + b.z⟩

/-- Scalar multiple (`v.multiplyScalar s` / GLSL `s * v`). -/
def Vec3.smul {α : Type} [Mul α] (s : α) (v : Vec3 α) : Vec3 α :=
  ⟨s * v.x, s * v.y, s * v.z⟩

/-- GLSL `mix(a, b, t) = a*(1-t) + b*t`, componentwise. -/
def Vec3.mix {α : Type} [CommRing α] (a b : Vec3 α) (t : α) : Vec3 α :=
  ⟨a.x * (1 - t) + b.x * t, a.y * (1 - t) + b.y * t, a.z * (1 - t) + b.z * t⟩

/-- `THREE.Vector3.lerp(v, alpha)`: `this += (v - this) * alpha`,
componentwise. -/
def Vec3.lerp {α : Type} [CommRing α] (a b : Vec3 α) (alpha : α) : Vec3 α :=
  ⟨a.x + (b.x - a.x) * alpha, a.y + (b.y - a.y) * alpha, a.z + (b.z - a.z) * alpha⟩

/-- Squared Euclidean length (`dot(v, v)` / `lengthSq`). -/
def Vec3.normSq {α : Type} [CommRing α] (v : Vec3 α) : α :=
  v.x * v.x + v.y * v.y + v.z * v.z

/-- Squared Euclidean distance between two points; `THREE.Vector3.distanceTo`
is its square root, so comparisons of `distanceTo` against a non-negative
bound are comparisons of `distSq` against the squared bound. -/
def Vec3.distSq {α : Type} [CommRing α] (a b : Vec3 α) : α :=
  (a.x - b.x) * (a.x - b.x) + (a.y - b.y) * (a.y - b.y) + (a.z - b.z) * (a.z - b.z)

/-- GLSL `normalize(v) = v / length(v)` (Euclidean length). -/
noncomputable def Vec3.normalize (v : Vec3 ℝ) : Vec3 ℝ :=
  let n := Real.sqrt v.normSq
  ⟨v.x / n, v.y / n, v.z / n⟩

/-- GLSL `clamp(x, lo, hi)` = `min(max(x, lo), hi)`; `THREE.MathUtils.clamp`
computes the same value for `lo ≤ hi`. -/
def clamp {α : Type} [LinearOrder α] (x lo hi : α) : α :=
  min (max x lo) hi

/-- The easing function shared by both vertex shaders
(`Foliage.tsx` and `SpiralGarland.tsx`):
`x < 0.5 ? 4x³ : 1 - (-2x+2)³/2`. -/
def easeInOutCubic {α : Type} [LinearOrderedField α] (x : α) : α :=
  if x < 1/2 then 4 * x * x * x else 1 - (-2 * x + 2)^3 / 2

/-- The per-element staggered interpolation factor of the vertex shaders:
`delayedT = clamp(easeInOutCubic(progress) * k - phase * spread, 0, 1)`.
`Foliage.tsx` uses `k = 1.2, spread = 0.2`; `SpiralGarland.tsx` uses
`k = 1.5, spread = 0.5`; `phase` is the `aRandom` attribute in `[0,1)`. -/
def delayedT {α : Type} [LinearOrderedField α] (k spread progress phase : α) : α :=
  clamp (easeInOutCubic progress * k - phase * spread) 0 1

/-- Modelled from the spec: the per-frame progress update performed by the
`easing.damp(uniforms.uProgress, 'value', target, tau, delta)` calls in the
`useFrame` handlers of `Foliage.tsx`, `SpiralGarland.tsx` and
`src/unnamed/part_000`.  The damping implementation itself lives in the
external `maath` package and is not part of this repository; the spec
specifies it as critically-damped exponential smoothing:
`progress ← target − (target − progress) · exp(−delta/τ)`. -/
noncomputable def dampProgress (p target delta tau : ℝ) : ℝ :=
  target - (target - p) * Real.exp (-(delta / tau))

/-- The position computation of the `Foliage.tsx` vertex shader
(`vertexShader`, `main`), up to the `mvPosition` projection: staggered blend
of `aScatterPos`/`aTreePos`, plus the breathing offset
`normalize(pos) * breath * (0.5 + 0.5 * uProgress)` with
`breath = sin(uTime*1.5 + aRandom*10.0) * 0.03`, plus — only while
`uProgress < 0.9` — the sway terms on `x` then `y` (the updated `x` feeds
the `y` term, as in the sequential GLSL statements). -/
noncomputable def foliageVertexPos (uTime uProgress : ℝ) (aScatterPos aTreePos : Vec3 ℝ)
    (aRandom : ℝ) : Vec3 ℝ :=
  let t := easeInOutCubic uProgress
  let dT := clamp (t * 1.2 - aRandom * 0.2) 0 1
  let pos := Vec3.mix aScatterPos aTreePos dT
  let breath := Real.sin (uTime * 1.5 + aRandom * 10) * 0.03
  let pos2 := pos.add (Vec3.smul (breath * (0.5 + 0.5 * uProgress)) pos.normalize)
  if uProgress < 0.9 then
    let x1 := pos2.x + Real.sin (uTime * 0.5 + pos2.y) * 0.2 * (1 - uProgress)
    let y1 := pos2.y + Real.cos (uTime * 0.3 + x1) * 0.2 * (1 - uProgress)
    ⟨x1, y1, pos2.z⟩
  else pos2

/-- The position computation of the `SpiralGarland.tsx` vertex shader
(`spiralVertexShader`, `main`): staggered blend of `aScatterPos`/`aTreePos`,
plus — only while `uProgress < 0.95` — the organic `y` sway
`sin(uTime + aRandom*10.0) * 0.1 * (1.0 - uProgress)`. -/
noncomputable def spiralVertexPos (uTime uProgress : ℝ) (aScatterPos aTreePos : Vec3 ℝ)
    (aRandom : ℝ) : Vec3 ℝ :=
  let t := easeInOutCubic uProgress
  let dT := clamp (t * 1.5 - aRandom * 0.5) 0 1
  let pos := Vec3.mix aScatterPos aTreePos dT
  if uProgress < 0.95 then
    { pos with y := pos.y + Real.sin (uTime + aRandom * 10) * 0.1 * (1 - uProgress) }
  else pos

/-- Per-element state of an `OrnamentGroup` instance (`Effects.tsx`, the
`data` array built in `useMemo`): endpoint positions, mutable current
position and rotation, static scale and rotation speed. -/
structure OrnamentData where
  treePos : Vec3 ℝ
  scatterPos : Vec3 ℝ
  currentPos : Vec3 ℝ
  rotation : Vec3 ℝ
  scale : Vec3 ℝ
  rotationSpeed : ℝ

/-- The host-side lag factor of `OrnamentGroup`:
`clamp(delta * (2.0 / (weight + 0.5)), 0, 1)`. -/
def ornamentLerpFactor (delta weight : ℚ) : ℚ :=
  clamp (delta * (2 / (weight + 0.5))) 0 1

/-- The body of the `data.forEach` in `OrnamentGroup`'s `useFrame`
(`Effects.tsx`): lerp `currentPos` toward the target chosen by
`targetIsTree`, add the idle `y` jitter `sin(elapsedTime + i) * 0.005` only
when not targeting the tree, and advance `rotation.x`/`rotation.y` by
`rotationSpeed`.  `lerpFactor` is computed once per family (see
`ornamentLerpFactor`) and passed in. -/
noncomputable def ornamentUpdate (d : OrnamentData) (targetIsTree : Bool)
    (lerpFactor elapsedTime : ℝ) (i : ℕ) : OrnamentData :=
  let target := if targetIsTree then d.treePos else d.scatterPos
  let cp := d.currentPos.lerp target lerpFactor
  let cp2 := if targetIsTree then cp
    else { cp with y := cp.y + Real.sin (elapsedTime + (i : ℝ)) * 0.005 }
  { d with
    currentPos := cp2
    rotation := ⟨d.rotation.x + d.rotationSpeed, d.rotation.y + d.rotationSpeed,
      d.rotation.z⟩ }

/-- Per-element state of a `GiftBoxGroup` instance (`Effects.tsx`):
endpoint positions, mutable current position and rotation, static scale,
rotation speed and the two colors fixed at construction. -/
structure GiftBoxData where
  treePos : Vec3 ℝ
  scatterPos : Vec3 ℝ
  currentPos : Vec3 ℝ
  rotation : Vec3 ℝ
  scale : Vec3 ℝ
  rotationSpeed : ℝ
  color : String
  ribbonColor : String

/-- The body of the `data.forEach` in `GiftBoxGroup`'s `useFrame`
(`Effects.tsx`): lerp `currentPos` toward the chosen target; when scattered,
add the idle `y` jitter and spin `rotation.x`/`rotation.y` by
`rotationSpeed`; when targeting the tree, only advance `rotation.y` by
`rotationSpeed * 0.1`. -/
noncomputable def giftBoxUpdate (d : GiftBoxData) (targetIsTree : Bool)
    (lerpFactor elapsedTime : ℝ) (i : ℕ) : GiftBoxData :=
  let target := if targetIsTree then d.treePos else d.scatterPos
  let cp := d.currentPos.lerp target lerpFactor
  if targetIsTree then
    { d with
      currentPos := cp
      rotation := ⟨d.rotation.x, d.rotation.y + d.rotationSpeed * 0.1, d.rotation.z⟩ }
  else
    { d with
      currentPos := { cp with y := cp.y + Real.sin (elapsedTime + (i : ℝ)) * 0.005 }
      rotation := ⟨d.rotation.x + d.rotationSpeed, d.rotation.y + d.rotationSpeed,
        d.rotation.z⟩ }

/-- `getRandomSpherePoint` from `src/utils/math.ts`, with the three
`Math.random()` draws made explicit as `u`, `v`, `w`: azimuth
`theta = 2π·u`, polar angle `phi = arccos(2v − 1)`, radial distance
`cbrt(w) · radius`. -/
noncomputable def getRandomSpherePoint (radius u v w : ℝ) : Vec3 ℝ :=
  let theta := 2 * Real.pi * u
  let phi := Real.arccos (2 * v - 1)
  let r := w ^ ((1 : ℝ)/3) * radius
  let sinPhi := Real.sin phi
  ⟨r * sinPhi * Real.cos theta, r * sinPhi * Real.sin theta, r * Real.cos phi⟩

/-- `getWeightedFoliagePoint` from `Foliage.tsx`, with the three
`Math.random()` draws explicit (`r` for the vertical bias, `thetaU` for the
angle, `jitter` for the radial jitter): `bias = r^6`,
`y = yOffset − height/2 + bias·height`, cone taper radius at that height,
radial jitter factor `0.8 + jitter·0.3`. -/
noncomputable def getWeightedFoliagePoint (height baseRadius yOffset r thetaU jitter : ℝ) :
    Vec3 ℝ :=
  let bias := r ^ (6 : ℝ)
  let y := yOffset - height / 2 + bias * height
  let relativeHeight := (y - yOffset + height / 2) / height
  let radiusAtHeight := baseRadius * (1 - relativeHeight)
  let theta := thetaU * Real.pi * 2
  let rRad := radiusAtHeight * (0.8 + jitter * 0.3)
  ⟨rRad * Real.cos theta, y, rRad * Real.sin theta⟩

/-- `getSpiralPoint` from `Effects.tsx` (sphere ornaments), randomness
explicit: `biasedT = t^1.5`, relative height capped by `maxH = 0.85`,
spiral angle with noise, surface-hugging radial factor `0.95 + jitter·0.15`. -/
noncomputable def getSpiralPoint (height baseRadius yOffset phase t noise jitter : ℝ) :
    Vec3 ℝ :=
  let biasedT := t ^ (1.5 : ℝ)
  let maxH := (0.85 : ℝ)
  let relativeHeight := biasedT * maxH
  let y := yOffset - height / 2 + relativeHeight * height
  let radiusAtHeight := baseRadius * (1 - relativeHeight)
  let turns := (3.5 : ℝ)
  let baseTheta := relativeHeight * Real.pi * 2 * turns + phase
  let noiseSpread := (0.6 : ℝ)
  let theta := baseTheta + (noise - 0.5) * noiseSpread
  let r := radiusAtHeight * (0.95 + jitter * 0.15)
  ⟨r * Real.cos theta, y, r * Real.sin theta⟩

/-- `getTinyBaublePoint` from `Effects.tsx`, randomness explicit:
`bias = r^2.5`, height capped by `maxRelativeHeight = 0.9`, surface radial
factor `0.9 + jitter·0.15`. -/
noncomputable def getTinyBaublePoint (height baseRadius yOffset r thetaU jitter : ℝ) :
    Vec3 ℝ :=
  let bias := r ^ (2.5 : ℝ)
  let maxRelativeHeight := (0.9 : ℝ)
  let y := yOffset - height / 2 + bias * height * maxRelativeHeight
  let relativeHeight := (y - yOffset + height / 2) / height
  let radiusAtHeight := baseRadius * (1 - relativeHeight)
  let theta := thetaU * Real.pi * 2
  let rad := radiusAtHeight * (0.9 + jitter * 0.15)
  ⟨rad * Real.cos theta, y, rad * Real.sin theta⟩

/-- `getGiftBoxPoint` from `Effects.tsx`, randomness explicit:
`bias = r^2.8`, height capped by `maxRelativeHeight = 0.6`, interior radial
factor `0.5 + jitter·0.7`. -/
noncomputable def getGiftBoxPoint (height baseRadius yOffset r thetaU jitter : ℝ) :
    Vec3 ℝ :=
  let bias := r ^ (2.8 : ℝ)
  let maxRelativeHeight := (0.6 : ℝ)
  let y := yOffset - height / 2 + bias * height * maxRelativeHeight
  let relativeHeight := (y - yOffset + height / 2) / height
  let radiusAtHeight := baseRadius * (1 - relativeHeight)
  let theta := thetaU * Real.pi * 2
  let dist := radiusAtHeight * (0.5 + jitter * 0.7)
  ⟨dist * Real.cos theta, y, dist * Real.sin theta⟩

/-- The assembled position of the star topper (`TopStar` in `Effects.tsx`):
`treePos = new THREE.Vector3(0, 5.6, 0)`. -/
noncomputable def topStarTreePos : Vec3 ℝ :=
  ⟨0, 5.6, 0⟩

/-- The acceptance test of the gift-box rejection loop (`GiftBoxGroup` in
`Effects.tsx`): a candidate is valid iff its distance to every previously
accepted scatter position is at least `minDistance` (the loop marks it
invalid on `distanceTo < minDistance`); stated on squared distances, which
is equivalent since both sides are non-negative. -/
def validCandidate (minDistance : ℚ) (placed : List (Vec3 ℚ)) (p : Vec3 ℚ) : Bool :=
  placed.all fun q => decide (minDistance ^ 2 ≤ p.distSq q)

/-- The bounded-retry loop of `GiftBoxGroup`: walk the (at most
`maxAttempts`-long) list of candidate draws from the base sampler and return
the first valid one together with the number of draws consumed; `none` when
every draw failed. -/
def tryPlace (minDistance : ℚ) (placed : List (Vec3 ℚ)) :
    List (Vec3 ℚ) → Option (Vec3 ℚ × ℕ)
  | [] => none
  | c :: rest =>
    if validCandidate minDistance placed c then some (c, 1)
    else
      match tryPlace minDistance placed rest with
      | some (p, n) => some (p, n + 1)
      | none => none

/-- Placement of one gift box: run the bounded-retry loop; when it fails,
take the `fallback` point (the single unconditional draw from the looser
radius-22 sampler in the source) and flag it.  Returns (point, fallback
flag, number of base-sampler draws consumed). -/
def placeOne (minDistance : ℚ) (placed : List (Vec3 ℚ)) (candidates : List (Vec3 ℚ))
    (fallback : Vec3 ℚ) : Vec3 ℚ × Bool × ℕ :=
  match tryPlace minDistance placed candidates with
  | some (p, n) => (p, false, n)
  | none => (fallback, true, candidates.length)

/-- Batch construction of `GiftBoxGroup`'s scatter positions: one
(candidate-stream, fallback) pair per element, each element checked against
all previously accepted points of the same batch. -/
def buildBatch (minDistance : ℚ) :
    List (List (Vec3 ℚ) × Vec3 ℚ) → List (Vec3 ℚ) → List (Vec3 ℚ × Bool × ℕ)
  | [], _ => []
  | (cands, fb) :: rest, placed =>
    let r := placeOne minDistance placed cands fb
    r :: buildBatch minDistance rest (placed ++ [r.1])

/-- Total number of base-sampler draws consumed by a batch. -/
def batchDraws (out : List (Vec3 ℚ × Bool × ℕ)) : ℕ :=
  (out.map fun r => r.2.2).sum

open MeasureTheory

/-- Row functional `(x, y, z) ↦ a·x + b·y + c·z` on `ℝ × ℝ × ℝ`. -/
noncomputable def rowCLM (a b c : ℝ) : (ℝ × ℝ × ℝ) →L[ℝ] ℝ :=
  a • ContinuousLinearMap.fst ℝ ℝ (ℝ × ℝ) +
    b • ((ContinuousLinearMap.fst ℝ ℝ ℝ).comp (ContinuousLinearMap.snd ℝ ℝ (ℝ × ℝ))) +
    c • ((ContinuousLinearMap.snd ℝ ℝ ℝ).comp (ContinuousLinearMap.snd ℝ ℝ (ℝ × ℝ)))

/-- The linear map on `ℝ × ℝ × ℝ` with matrix rows `(a₁,a₂,a₃)`, `(b₁,b₂,b₃)`,
`(c₁,c₂,c₃)`. -/
noncomputable def tripleCLM (a₁ a₂ a₃ b₁ b₂ b₃ c₁ c₂ c₃ : ℝ) :
    (ℝ × ℝ × ℝ) →L[ℝ] (ℝ × ℝ × ℝ) :=
  (rowCLM a₁ a₂ a₃).prod ((rowCLM b₁ b₂ b₃).prod (rowCLM c₁ c₂ c₃))

/-- Smooth model of the scatter sampler on raw draw triples: the same
spherical parametrization as `getRandomSpherePoint`, with
`sin (arccos t)` written as `Real.sqrt (1 - t^2)` so that the map is
differentiable in the polar draw `v`.  It agrees with the sampler for
`v ∈ [0,1]` (`spherePointProd_eq_smooth`). -/
noncomputable def spherePointSmooth (radius : ℝ) (p : ℝ × ℝ × ℝ) : ℝ × ℝ × ℝ :=
  (p.2.2 ^ ((1 : ℝ)/3) * radius * Real.sqrt (1 - (2 * p.2.1 - 1)^2) *
      Real.cos (2 * Real.pi * p.1),
   p.2.2 ^ ((1 : ℝ)/3) * radius * Real.sqrt (1 - (2 * p.2.1 - 1)^2) *
      Real.sin (2 * Real.pi * p.1),
   p.2.2 ^ ((1 : ℝ)/3) * radius * (2 * p.2.1 - 1))

/-- The Jacobian matrix (as a continuous linear map) of
`spherePointSmooth` at a draw triple. -/
noncomputable def sphereDeriv (R : ℝ) (p : ℝ × ℝ × ℝ) : (ℝ × ℝ × ℝ) →L[ℝ] (ℝ × ℝ × ℝ) :=
  tripleCLM
    (-(p.2.2 ^ ((1 : ℝ)/3) * R * Real.sqrt (1 - (2 * p.2.1 - 1)^2) *
        Real.sin (2 * Real.pi * p.1) * (2 * Real.pi)))
    (p.2.2 ^ ((1 : ℝ)/3) * R *
      (-(2 * (2 * p.2.1 - 1)^1 * 2) / (2 * Real.sqrt (1 - (2 * p.2.1 - 1)^2))) *
      Real.cos (2 * Real.pi * p.1))
    ((1 : ℝ)/3 * p.2.2 ^ ((1 : ℝ)/3 - 1) * R * Real.sqrt (1 - (2 * p.2.1 - 1)^2) *
      Real.cos (2 * Real.pi * p.1))
    (p.2.2 ^ ((1 : ℝ)/3) * R * Real.sqrt (1 - (2 * p.2.1 - 1)^2) *
      Real.cos (2 * Real.pi * p.1) * (2 * Real.pi))
    (p.2.2 ^ ((1 : ℝ)/3) * R *
      (-(2 * (2 * p.2.1 - 1)^1 * 2) / (2 * Real.sqrt (1 - (2 * p.2.1 - 1)^2))) *
      Real.sin (2 * Real.pi * p.1))
    ((1 : ℝ)/3 * p.2.2 ^ ((1 : ℝ)/3 - 1) * R * Real.sqrt (1 - (2 * p.2.1 - 1)^2) *
      Real.sin (2 * Real.pi * p.1))
    0
    (p.2.2 ^ ((1 : ℝ)/3) * R * 2)
    ((1 : ℝ)/3 * p.2.2 ^ ((1 : ℝ)/3 - 1) * R * (2 * p.2.1 - 1))

/-- The scatter sampler as a map of draw triples, componentwise the
`Vec3` produced by `getRandomSpherePoint`. -/
noncomputable def spherePointProd (radius : ℝ) (p : ℝ × ℝ × ℝ) : ℝ × ℝ × ℝ :=
  ((getRandomSpherePoint radius p.1 p.2.1 p.2.2).x,
   (getRandomSpherePoint radius p.1 p.2.1 p.2.2).y,
   (getRandomSpherePoint radius p.1 p.2.1 p.2.2).z)

instance : MeasureTheory.Measure.IsAddHaarMeasure (volume : Measure (ℝ × ℝ × ℝ)) :=
  MeasureTheory.Measure.prod.instIsAddHaarMeasure _ _

theorem easeInOutCubic_zero {α : Type} [LinearOrderedField α] :
    easeInOutCubic (0 : α) = 0 := by
  norm_num [easeInOutCubic]

theorem easeInOutCubic_one {α : Type} [LinearOrderedField α] :
    easeInOutCubic (1 : α) = 1 := by
  norm_num [easeInOutCubic]

theorem clamp_of_le_lo {α : Type} [LinearOrder α] {x lo hi : α}
    (h : x ≤ lo) (hlh : lo ≤ hi) : clamp x lo hi = lo := by
  simp [clamp, max_eq_right h, min_eq_left hlh]

theorem clamp_of_hi_le {α : Type} [LinearOrder α] {x lo hi : α}
    (h : hi ≤ x) (hlh : lo ≤ hi) : clamp x lo hi = hi := by
  have : lo ≤ x := le_trans hlh h
  simp [clamp, max_eq_left this, min_eq_right h]

theorem Vec3.mix_one {α : Type} [CommRing α] (a b : Vec3 α) : Vec3.mix a b 1 = b := by
  simp [Vec3.mix]

theorem Vec3.mix_zero {α : Type} [CommRing α] (a b : Vec3 α) : Vec3.mix a b 0 = a := by
  simp [Vec3.mix]

/-- C1: For both phase-staggered blend paths (foliage: `k = 1.2`,
`spread = 0.2`; garland: `k = 1.5`, `spread = 0.5`) and every element phase
in `[0,1)`, the staggered factor `delayedT` reaches exactly `1` at family
progress `1` and exactly `0` at progress `0`, so the interpolated position
`mix(scatterPos, treePos, delayedT)` equals `treePos` at progress `1` and
`scatterPos` at progress `0`. -/
theorem foliage_garland_blend_endpoints (phase : ℚ) (h0 : 0 ≤ phase)
    (h1 : phase < 1) (s t : Vec3 ℚ) :
    delayedT 1.2 0.2 1 phase = 1 ∧ delayedT 1.2 0.2 0 phase = 0 ∧
    delayedT 1.5 0.5 1 phase = 1 ∧ delayedT 1.5 0.5 0 phase = 0 ∧
    Vec3.mix s t (delayedT 1.2 0.2 1 phase) = t ∧
    Vec3.mix s t (delayedT 1.2 0.2 0 phase) = s ∧
    Vec3.mix s t (delayedT 1.5 0.5 1 phase) = t ∧
    Vec3.mix s t (delayedT 1.5 0.5 0 phase) = s := by
  have e1 : easeInOutCubic (1 : ℚ) = 1 := easeInOutCubic_one
  have e0 : easeInOutCubic (0 : ℚ) = 0 := easeInOutCubic_zero
  have hf1 : delayedT 1.2 0.2 1 phase = 1 := by
    unfold delayedT
    rw [e1]
    apply clamp_of_hi_le _ zero_le_one
    nlinarith
  have hf0 : delayedT 1.2 0.2 0 phase = 0 := by
    unfold delayedT
    rw [e0]
    apply clamp_of_le_lo _ zero_le_one
    nlinarith
  have hg1 : delayedT 1.5 0.5 1 phase = 1 := by
    unfold delayedT
    rw [e1]
    apply clamp_of_hi_le _ zero_le_one
    nlinarith
  have hg0 : delayedT 1.5 0.5 0 phase = 0 := by
    unfold delayedT
    rw [e0]
    apply clamp_of_le_lo _ zero_le_one
    nlinarith
  refine ⟨hf1, hf0, hg1, hg0, ?_, ?_, ?_, ?_⟩ <;>
    simp [hf1, hf0, hg1, hg0, Vec3.mix_one, Vec3.mix_zero]

/-- Witness for C1 at the concrete phase `1/2` and concrete endpoint
vectors. -/
theorem foliage_garland_blend_endpoints_witness :
    (0 : ℚ) ≤ 1/2 ∧ (1/2 : ℚ) < 1 ∧
    (delayedT 1.2 0.2 1 (1/2 : ℚ) = 1 ∧ delayedT 1.2 0.2 0 (1/2 : ℚ) = 0 ∧
     delayedT 1.5 0.5 1 (1/2 : ℚ) = 1 ∧ delayedT 1.5 0.5 0 (1/2 : ℚ) = 0 ∧
     Vec3.mix ⟨2, 3, 4⟩ ⟨5, 6, 7⟩ (delayedT 1.2 0.2 1 (1/2 : ℚ)) = ⟨5, 6, 7⟩ ∧
     Vec3.mix ⟨2, 3, 4⟩ ⟨5, 6, 7⟩ (delayedT 1.2 0.2 0 (1/2 : ℚ)) = ⟨2, 3, 4⟩ ∧
     Vec3.mix ⟨2, 3, 4⟩ ⟨5, 6, 7⟩ (delayedT 1.5 0.5 1 (1/2 : ℚ)) = ⟨5, 6, 7⟩ ∧
     Vec3.mix ⟨2, 3, 4⟩ ⟨5, 6, 7⟩ (delayedT 1.5 0.5 0 (1/2 : ℚ)) = ⟨2, 3, 4⟩) :=
  ⟨by norm_num, by norm_num,
    foliage_garland_blend_endpoints (1/2) (by norm_num) (by norm_num) ⟨2, 3, 4⟩ ⟨5, 6, 7⟩⟩

/-- C2: the progress update keeps progress in `[0,1]` and never overshoots
the target: for every non-negative `delta`, positive time constant `tau`,
progress `p ∈ [0,1]` and target in `{0,1}`, the updated progress stays in
`[0,1]`, moving toward target `1` it never drops below `p` (and never
exceeds `1`), and moving toward target `0` it never rises above `p` (and
never drops below `0`) — for arbitrarily large `delta`. -/
theorem dampProgress_invariant (p target delta tau : ℝ) (hd : 0 ≤ delta)
    (ht : 0 < tau) (hp0 : 0 ≤ p) (hp1 : p ≤ 1) (htgt : target = 0 ∨ target = 1) :
    (0 ≤ dampProgress p target delta tau ∧ dampProgress p target delta tau ≤ 1) ∧
    (target = 1 → p ≤ dampProgress p target delta tau) ∧
    (target = 0 → dampProgress p target delta tau ≤ p) := by
  have hs0 : 0 < Real.exp (-(delta / tau)) := Real.exp_pos _
  have hs1 : Real.exp (-(delta / tau)) ≤ 1 := by
    rw [Real.exp_le_one_iff]
    simp [div_nonneg hd ht.le]
  unfold dampProgress
  rcases htgt with h | h <;> subst h
  · refine ⟨⟨by nlinarith, by nlinarith⟩, by simp, fun _ => by nlinarith⟩
  · refine ⟨⟨by nlinarith, by nlinarith⟩, fun _ => by nlinarith, by simp⟩

/-- Witness for C2 at `p = 0`, `target = 1`, `delta = 1`, `tau = 1`. -/
theorem dampProgress_invariant_witness :
    (0 : ℝ) ≤ 1 ∧ (0 : ℝ) < 1 ∧ (0 : ℝ) ≤ 0 ∧ (0 : ℝ) ≤ 1 ∧
    ((1 : ℝ) = 0 ∨ (1 : ℝ) = 1) ∧
    ((0 ≤ dampProgress 0 1 1 1 ∧ dampProgress 0 1 1 1 ≤ 1) ∧
     ((1 : ℝ) = 1 → (0 : ℝ) ≤ dampProgress 0 1 1 1) ∧
     ((1 : ℝ) = 0 → dampProgress 0 1 1 1 ≤ 0)) :=
  ⟨zero_le_one, zero_lt_one, le_refl 0, zero_le_one, Or.inr rfl,
    dampProgress_invariant 0 1 1 1 zero_le_one zero_lt_one (le_refl 0) zero_le_one
      (Or.inr rfl)⟩

/-- C4: concrete scenario for a controller with `tau = 1`, progress starting
at `0`, target `1` (ASSEMBLED): one update with `delta = 1` yields exactly
`1 − e⁻¹` (which lies in `(0.632, 0.633)`), and a further update with
`delta = 2` yields exactly `1 − e⁻³` (which lies in `(0.95, 0.951)`). -/
theorem dampProgress_scenario :
    dampProgress 0 1 1 1 = 1 - Real.exp (-1) ∧
    dampProgress (dampProgress 0 1 1 1) 1 2 1 = 1 - Real.exp (-3) ∧
    (0.632 : ℝ) < dampProgress 0 1 1 1 ∧ dampProgress 0 1 1 1 < 0.633 ∧
    (0.95 : ℝ) < dampProgress (dampProgress 0 1 1 1) 1 2 1 ∧
    dampProgress (dampProgress 0 1 1 1) 1 2 1 < 0.951 := by
  have he1 : dampProgress 0 1 1 1 = 1 - Real.exp (-1) := by
    unfold dampProgress
    norm_num
  have hmul : Real.exp (-1) * Real.exp (-2) = Real.exp (-3) := by
    rw [← Real.exp_add]
    norm_num
  have he3 : dampProgress (dampProgress 0 1 1 1) 1 2 1 = 1 - Real.exp (-3) := by
    rw [he1]
    unfold dampProgress
    have h21 : -((2 : ℝ) / 1) = (-2 : ℝ) := by norm_num
    rw [h21, ← hmul]
    ring
  have hinv1 : Real.exp (-1) * Real.exp 1 = 1 := by
    rw [← Real.exp_add]
    norm_num
  have hgt : (2.7182818283 : ℝ) < Real.exp 1 := Real.exp_one_gt_d9
  have hlt : Real.exp 1 < 2.7182818286 := Real.exp_one_lt_d9
  have hpos1 : 0 < Real.exp (-1) := Real.exp_pos _
  have hb1 : Real.exp (-1) < 0.368 := by nlinarith
  have hb2 : (0.367 : ℝ) < Real.exp (-1) := by nlinarith
  have hexp3 : Real.exp 3 = Real.exp 1 ^ 3 := by
    rw [← Real.exp_nat_mul]
    norm_num
  have hinv3 : Real.exp (-3) * Real.exp 1 ^ 3 = 1 := by
    rw [← hexp3, ← Real.exp_add]
    norm_num
  have hpos3 : 0 < Real.exp (-3) := Real.exp_pos _
  have hpose : (0 : ℝ) < Real.exp 1 := Real.exp_pos 1
  have hsq_gt : (7.389 : ℝ) < Real.exp 1 ^ 2 := by nlinarith
  have hsq_lt : Real.exp 1 ^ 2 < 7.3891 := by nlinarith
  have hcube_gt : (20.08 : ℝ) < Real.exp 1 ^ 3 := by nlinarith
  have hcube_lt : Real.exp 1 ^ 3 < 20.09 := by nlinarith
  have hb3 : Real.exp (-3) < 0.05 := by nlinarith
  have hb4 : (0.049 : ℝ) < Real.exp (-3) := by nlinarith
  exact ⟨he1, he3, by rw [he1]; linarith, by rw [he1]; linarith,
    by rw [he3]; linarith, by rw [he3]; linarith⟩

theorem lo_le_clamp {α : Type} [LinearOrder α] {lo hi : α} (x : α) (hlh : lo ≤ hi) :
    lo ≤ clamp x lo hi :=
  le_min (le_max_right x lo) hlh

theorem clamp_le_hi {α : Type} [LinearOrder α] (x lo hi : α) : clamp x lo hi ≤ hi :=
  min_le_right _ _

theorem clamp_mono_arg {α : Type} [LinearOrder α] {x y : α} (lo hi : α) (h : x ≤ y) :
    clamp x lo hi ≤ clamp y lo hi :=
  min_le_min (max_le_max h le_rfl) le_rfl

/-- C8: the host-side lag factor
`lerpFactor = clamp(delta * (2.0 / (weight + 0.5)), 0, 1)` of
`OrnamentGroup` is total and guarded: for every `delta ≥ 0` and weights
`0 ≤ w ≤ w'` (including `w = 0`), the denominator `w + 0.5` is strictly
positive (no division by zero), the factor lies in `[0,1]`, and the factor
is non-increasing in the weight. -/
theorem ornamentLerpFactor_safe (delta w w' : ℚ) (hd : 0 ≤ delta) (hw : 0 ≤ w)
    (hw' : 0 ≤ w') (hww : w ≤ w') :
    0 < w + 0.5 ∧
    0 ≤ ornamentLerpFactor delta w ∧ ornamentLerpFactor delta w ≤ 1 ∧
    ornamentLerpFactor delta w' ≤ ornamentLerpFactor delta w := by
  refine ⟨by linarith, lo_le_clamp _ zero_le_one, clamp_le_hi _ _ _, ?_⟩
  apply clamp_mono_arg
  have hb : (0 : ℚ) < w + 0.5 := by linarith
  have hc : w + 0.5 ≤ w' + 0.5 := by linarith
  have hdiv : 2 / (w' + 0.5) ≤ 2 / (w + 0.5) :=
    div_le_div_of_nonneg_left (by norm_num) hb hc
  exact mul_le_mul_of_nonneg_left hdiv hd

/-- Witness for C8 at `delta = 1`, `w = 0`, `w' = 1`. -/
theorem ornamentLerpFactor_safe_witness :
    (0 : ℚ) ≤ 1 ∧ (0 : ℚ) ≤ 0 ∧ (0 : ℚ) ≤ 1 ∧ (0 : ℚ) ≤ 1 ∧
    (0 < (0 : ℚ) + 0.5 ∧
     0 ≤ ornamentLerpFactor 1 0 ∧ ornamentLerpFactor 1 0 ≤ 1 ∧
     ornamentLerpFactor 1 1 ≤ ornamentLerpFactor 1 0) :=
  ⟨zero_le_one, le_refl 0, zero_le_one, zero_le_one,
    ornamentLerpFactor_safe 1 0 1 zero_le_one (le_refl 0) zero_le_one zero_le_one⟩

/-- C9: frame condition of the per-frame element updates of `OrnamentGroup`
and `GiftBoxGroup`: for every element state, target state, lag factor,
elapsed time and index, the update leaves `treePos` (the target position),
`scatterPos`, `scale`, `rotationSpeed` and the colors untouched — only
`currentPos` and `rotation` evolve. -/
theorem perFrameUpdate_frame_condition (d : OrnamentData) (g : GiftBoxData)
    (targetIsTree : Bool) (lerpFactor elapsedTime : ℝ) (i : ℕ) :
    ((ornamentUpdate d targetIsTree lerpFactor elapsedTime i).treePos = d.treePos ∧
     (ornamentUpdate d targetIsTree lerpFactor elapsedTime i).scatterPos = d.scatterPos ∧
     (ornamentUpdate d targetIsTree lerpFactor elapsedTime i).scale = d.scale ∧
     (ornamentUpdate d targetIsTree lerpFactor elapsedTime i).rotationSpeed =
       d.rotationSpeed) ∧
    ((giftBoxUpdate g targetIsTree lerpFactor elapsedTime i).treePos = g.treePos ∧
     (giftBoxUpdate g targetIsTree lerpFactor elapsedTime i).scatterPos = g.scatterPos ∧
     (giftBoxUpdate g targetIsTree lerpFactor elapsedTime i).scale = g.scale ∧
     (giftBoxUpdate g targetIsTree lerpFactor elapsedTime i).rotationSpeed =
       g.rotationSpeed ∧
     (giftBoxUpdate g targetIsTree lerpFactor elapsedTime i).color = g.color ∧
     (giftBoxUpdate g targetIsTree lerpFactor elapsedTime i).ribbonColor =
       g.ribbonColor) := by
  cases targetIsTree <;> simp [ornamentUpdate, giftBoxUpdate]

theorem foliageVertexPos_progress_one (uTime phase : ℝ) (s t : Vec3 ℝ)
    (h0 : 0 ≤ phase) (h1 : phase < 1) :
    foliageVertexPos uTime 1 s t phase =
      t.add (Vec3.smul (Real.sin (uTime * 1.5 + phase * 10) * 0.03) t.normalize) := by
  simp only [foliageVertexPos, easeInOutCubic_one, one_mul]
  rw [clamp_of_hi_le (by nlinarith) zero_le_one, Vec3.mix_one]
  rw [if_neg (by norm_num : ¬ (1 : ℝ) < 0.9)]
  have : Real.sin (uTime * 1.5 + phase * 10) * 0.03 * (0.5 + 0.5 * 1) =
      Real.sin (uTime * 1.5 + phase * 10) * 0.03 := by ring
  rw [this]

theorem spiralVertexPos_progress_one (uTime phase : ℝ) (s t : Vec3 ℝ)
    (h0 : 0 ≤ phase) (h1 : phase < 1) :
    spiralVertexPos uTime 1 s t phase = t := by
  simp only [spiralVertexPos, easeInOutCubic_one, one_mul]
  rw [clamp_of_hi_le (by nlinarith) zero_le_one, Vec3.mix_one]
  rw [if_neg (by norm_num : ¬ (1 : ℝ) < 0.95)]

/-- C3 counterexample: the idle-state overlay does NOT vanish entirely at
progress 1.  Concrete input: foliage element with `aScatterPos = (0,0,0)`,
`aTreePos = (0,1,0)`, phase `aRandom = 0`, at `uTime = π/3` and
`uProgress = 1`: the emitted position is `(0, 1.03, 0)` (the breathing term
contributes `sin(π/2)·0.03·(0.5+0.5·1) = 0.03` along `normalize(pos)`),
which differs from the blended endpoint
`mix(aScatterPos, aTreePos, delayedT) = (0,1,0)`. -/
theorem foliage_overlay_not_vanishing_counterexample :
    foliageVertexPos (Real.pi / 3) 1 ⟨0, 0, 0⟩ ⟨0, 1, 0⟩ 0 ≠
      Vec3.mix ⟨0, 0, 0⟩ ⟨0, 1, 0⟩ (delayedT 1.2 0.2 1 0) := by
  have hchar := foliageVertexPos_progress_one (Real.pi / 3) 0 ⟨0, 0, 0⟩ ⟨0, 1, 0⟩
    (le_refl 0) zero_lt_one
  have harg : Real.pi / 3 * 1.5 + (0 : ℝ) * 10 = Real.pi / 2 := by ring
  rw [harg, Real.sin_pi_div_two] at hchar
  have hnorm : (Vec3.normalize ⟨0, 1, 0⟩ : Vec3 ℝ) = ⟨0, 1, 0⟩ := by
    simp [Vec3.normalize, Vec3.normSq]
  rw [hnorm] at hchar
  have hval : foliageVertexPos (Real.pi / 3) 1 ⟨0, 0, 0⟩ ⟨0, 1, 0⟩ 0 =
      (⟨0, 1 + 1 * 0.03, 0⟩ : Vec3 ℝ) := by
    rw [hchar]
    simp [Vec3.add, Vec3.smul]
  have hdt : delayedT 1.2 0.2 1 (0 : ℝ) = 1 := by
    unfold delayedT
    rw [easeInOutCubic_one]
    exact clamp_of_hi_le (by norm_num) zero_le_one
  rw [hval, hdt, Vec3.mix_one]
  intro h
  have := congrArg Vec3.y h
  norm_num at this

/-- C3 amended: the progress-gated idle overlays do vanish in the settled
state — the garland shader's sway vanishes at progress 1 (emitted position
equals the blended endpoint `aTreePos` exactly), and the host-side ornament
jitter is not applied when the target is the tree — but the foliage
breathing perturbation does NOT vanish at progress 1: the foliage emitted
position equals the blended endpoint plus the breathing offset
`sin(uTime·1.5 + phase·10)·0.03` along `normalize(pos)`, at full amplitude
(`0.5 + 0.5·progress = 1`). -/
theorem idle_overlay_at_progress_one (uTime phase lf e : ℝ) (i : ℕ) (s t : Vec3 ℝ)
    (d : OrnamentData) (h0 : 0 ≤ phase) (h1 : phase < 1) :
    spiralVertexPos uTime 1 s t phase = t ∧
    foliageVertexPos uTime 1 s t phase =
      t.add (Vec3.smul (Real.sin (uTime * 1.5 + phase * 10) * 0.03) t.normalize) ∧
    (ornamentUpdate d true lf e i).currentPos = d.currentPos.lerp d.treePos lf :=
  ⟨spiralVertexPos_progress_one uTime phase s t h0 h1,
   foliageVertexPos_progress_one uTime phase s t h0 h1,
   by simp [ornamentUpdate]⟩

/-- Witness for the amended C3 at phase `0`, time `0`, concrete vectors and
element state. -/
theorem idle_overlay_at_progress_one_witness :
    (0 : ℝ) ≤ 0 ∧ (0 : ℝ) < 1 ∧
    (spiralVertexPos 0 1 ⟨1, 2, 3⟩ ⟨4, 5, 6⟩ 0 = ⟨4, 5, 6⟩ ∧
     foliageVertexPos 0 1 ⟨1, 2, 3⟩ ⟨4, 5, 6⟩ 0 =
       Vec3.add ⟨4, 5, 6⟩
         (Vec3.smul (Real.sin (0 * 1.5 + 0 * 10) * 0.03)
           (Vec3.normalize ⟨4, 5, 6⟩)) ∧
     (ornamentUpdate ⟨⟨1, 0, 0⟩, ⟨0, 1, 0⟩, ⟨0, 0, 1⟩, ⟨0, 0, 0⟩, ⟨1, 1, 1⟩, 2⟩ true
         (1/2) 0 0).currentPos =
       Vec3.lerp ⟨0, 0, 1⟩ ⟨1, 0, 0⟩ (1/2)) :=
  ⟨le_refl 0, zero_lt_one,
    idle_overlay_at_progress_one 0 0 (1/2) 0 0 ⟨1, 2, 3⟩ ⟨4, 5, 6⟩
      ⟨⟨1, 0, 0⟩, ⟨0, 1, 0⟩, ⟨0, 0, 1⟩, ⟨0, 0, 0⟩, ⟨1, 1, 1⟩, 2⟩ (le_refl 0) zero_lt_one⟩

/-- C10: every ornament target position stays strictly below the assembled
star position `y = 5.6`: for every random draw in `[0,1]`,
`getSpiralPoint(11, 4.8, −1, phase)` has `y ≤ 2.85`,
`getTinyBaublePoint(11, 4.6, −1)` has `y ≤ 3.4`, and
`getGiftBoxPoint(12, 5.5, −1)` has `y ≤ 0.2` — all below
`topStarTreePos.y = 5.6`, so no ornament is placed at the apex reserved for
the star topper. -/
theorem ornament_y_capped_below_star (phase t noise jitter r1 u1 j1 r2 u2 j2 : ℝ)
    (ht0 : 0 ≤ t) (ht1 : t ≤ 1) (hr10 : 0 ≤ r1) (hr11 : r1 ≤ 1)
    (hr20 : 0 ≤ r2) (hr21 : r2 ≤ 1) :
    (getSpiralPoint 11 4.8 (-1) phase t noise jitter).y ≤ 2.85 ∧
    (getTinyBaublePoint 11 4.6 (-1) r1 u1 j1).y ≤ 3.4 ∧
    (getGiftBoxPoint 12 5.5 (-1) r2 u2 j2).y ≤ 0.2 ∧
    (2.85 : ℝ) < topStarTreePos.y ∧ (3.4 : ℝ) < topStarTreePos.y ∧
    (0.2 : ℝ) < topStarTreePos.y := by
  have hs0 : 0 ≤ t ^ (1.5 : ℝ) := Real.rpow_nonneg ht0 _
  have hs1 : t ^ (1.5 : ℝ) ≤ 1 := Real.rpow_le_one ht0 ht1 (by norm_num)
  have hb1 : r1 ^ (2.5 : ℝ) ≤ 1 := Real.rpow_le_one hr10 hr11 (by norm_num)
  have hg1 : r2 ^ (2.8 : ℝ) ≤ 1 := Real.rpow_le_one hr20 hr21 (by norm_num)
  refine ⟨?_, ?_, ?_, by norm_num [topStarTreePos], by norm_num [topStarTreePos],
    by norm_num [topStarTreePos]⟩
  · simp only [getSpiralPoint]
    nlinarith
  · simp only [getTinyBaublePoint]
    nlinarith
  · simp only [getGiftBoxPoint]
    nlinarith

/-- Witness for C10 with all random draws equal to `0`. -/
theorem ornament_y_capped_below_star_witness :
    (0 : ℝ) ≤ 0 ∧ (0 : ℝ) ≤ 1 ∧
    ((getSpiralPoint 11 4.8 (-1) 0 0 0 0).y ≤ 2.85 ∧
     (getTinyBaublePoint 11 4.6 (-1) 0 0 0).y ≤ 3.4 ∧
     (getGiftBoxPoint 12 5.5 (-1) 0 0 0).y ≤ 0.2 ∧
     (2.85 : ℝ) < topStarTreePos.y ∧ (3.4 : ℝ) < topStarTreePos.y ∧
     (0.2 : ℝ) < topStarTreePos.y) :=
  ⟨le_refl 0, zero_le_one,
    ornament_y_capped_below_star 0 0 0 0 0 0 0 0 0 0 (le_refl 0) zero_le_one
      (le_refl 0) zero_le_one (le_refl 0) zero_le_one⟩

theorem getWeightedFoliagePoint_y (u : ℝ) :
    (getWeightedFoliagePoint 12 4.5 (-1) u 0 0).y = -7 + u ^ (6 : ℕ) * 12 := by
  simp only [getWeightedFoliagePoint]
  rw [← Real.rpow_natCast u 6]
  norm_num

theorem foliage_bottom_half_set_eq :
    {u : ℝ | u ∈ Set.Ico (0 : ℝ) 1 ∧ (getWeightedFoliagePoint 12 4.5 (-1) u 0 0).y ≤ -1} =
      Set.Icc 0 ((0.5 : ℝ) ^ ((1 : ℝ)/6)) := by
  have hc0 : (0 : ℝ) ≤ (0.5 : ℝ) ^ ((1 : ℝ)/6) := Real.rpow_nonneg (by norm_num) _
  have hc6 : ((0.5 : ℝ) ^ ((1 : ℝ)/6)) ^ (6 : ℕ) = 0.5 := by
    rw [← Real.rpow_natCast ((0.5 : ℝ) ^ ((1 : ℝ)/6)) 6,
      ← Real.rpow_mul (by norm_num : (0 : ℝ) ≤ 0.5)]
    norm_num
  have hc1 : (0.5 : ℝ) ^ ((1 : ℝ)/6) < 1 := by
    by_contra hcon
    push_neg at hcon
    have h6 : (1 : ℝ) ^ (6 : ℕ) ≤ ((0.5 : ℝ) ^ ((1 : ℝ)/6)) ^ (6 : ℕ) :=
      pow_le_pow_left zero_le_one hcon 6
    rw [hc6] at h6
    norm_num at h6
  ext u
  simp only [Set.mem_setOf_eq, Set.mem_Ico, Set.mem_Icc, getWeightedFoliagePoint_y]
  constructor
  · rintro ⟨⟨hu0, _⟩, hy⟩
    refine ⟨hu0, ?_⟩
    have h6 : u ^ (6 : ℕ) ≤ 0.5 := by linarith
    by_contra hlt
    push_neg at hlt
    have := pow_lt_pow_left hlt hc0 (n := 6) (by norm_num)
    rw [hc6] at this
    linarith
  · rintro ⟨hu0, huc⟩
    have h6 : u ^ (6 : ℕ) ≤ 0.5 := by
      calc u ^ (6 : ℕ) ≤ ((0.5 : ℝ) ^ ((1 : ℝ)/6)) ^ (6 : ℕ) :=
            pow_le_pow_left hu0 huc 6
        _ = 0.5 := hc6
    exact ⟨⟨hu0, lt_of_le_of_lt huc hc1⟩, by linarith⟩

/-- C6 counterexample: the claim that at least 95% of the uniform input
measure lands in the bottom half of the foliage height range is false: the
set of inputs `u ∈ [0,1)` whose sampled `y` lies in the bottom 50% of
`[−7, 5]` is exactly `[0, 2^{−1/6}]`, whose measure `2^{−1/6} ≈ 0.8909` is
strictly below `0.95`. -/
theorem foliage_bias_measure_below_95 :
    ¬ (ENNReal.ofReal 0.95 ≤
        MeasureTheory.volume
          {u : ℝ | u ∈ Set.Ico (0 : ℝ) 1 ∧
            (getWeightedFoliagePoint 12 4.5 (-1) u 0 0).y ≤ -1}) := by
  rw [not_le, foliage_bottom_half_set_eq, Real.volume_Icc]
  have hc6 : ((0.5 : ℝ) ^ ((1 : ℝ)/6)) ^ (6 : ℕ) = 0.5 := by
    rw [← Real.rpow_natCast ((0.5 : ℝ) ^ ((1 : ℝ)/6)) 6,
      ← Real.rpow_mul (by norm_num : (0 : ℝ) ≤ 0.5)]
    norm_num
  have hc95 : (0.5 : ℝ) ^ ((1 : ℝ)/6) < 0.95 := by
    by_contra hcon
    push_neg at hcon
    have h6 : (0.95 : ℝ) ^ (6 : ℕ) ≤ ((0.5 : ℝ) ^ ((1 : ℝ)/6)) ^ (6 : ℕ) :=
      pow_le_pow_left (by norm_num) hcon 6
    rw [hc6] at h6
    norm_num at h6
  exact (ENNReal.ofReal_lt_ofReal_iff (by norm_num)).mpr (by linarith)

/-- C6 amended: for the bias exponent 6 used by `getWeightedFoliagePoint`,
at least 89% (not 95%) of the uniform input measure yields a `y`-coordinate
in the bottom 50% of the height range: the measure of that input set is
`2^{−1/6} ≈ 0.891 ≥ 0.89`. -/
theorem foliage_bias_measure_at_least_89 :
    ENNReal.ofReal 0.89 ≤
      MeasureTheory.volume
        {u : ℝ | u ∈ Set.Ico (0 : ℝ) 1 ∧
          (getWeightedFoliagePoint 12 4.5 (-1) u 0 0).y ≤ -1} := by
  rw [foliage_bottom_half_set_eq, Real.volume_Icc]
  have hc6 : ((0.5 : ℝ) ^ ((1 : ℝ)/6)) ^ (6 : ℕ) = 0.5 := by
    rw [← Real.rpow_natCast ((0.5 : ℝ) ^ ((1 : ℝ)/6)) 6,
      ← Real.rpow_mul (by norm_num : (0 : ℝ) ≤ 0.5)]
    norm_num
  have hc89 : (0.89 : ℝ) ≤ (0.5 : ℝ) ^ ((1 : ℝ)/6) := by
    by_contra hcon
    push_neg at hcon
    have h6 := pow_lt_pow_left hcon
      (Real.rpow_nonneg (by norm_num : (0 : ℝ) ≤ 0.5) _) (n := 6) (by norm_num)
    rw [hc6] at h6
    norm_num at h6
  exact ENNReal.ofReal_le_ofReal (by linarith)

theorem validCandidate_iff (minDistance : ℚ) (placed : List (Vec3 ℚ)) (p : Vec3 ℚ) :
    validCandidate minDistance placed p = true ↔
      ∀ q ∈ placed, minDistance ^ 2 ≤ p.distSq q := by
  simp [validCandidate]

theorem tryPlace_some_valid (minDistance : ℚ) (placed : List (Vec3 ℚ))
    (cands : List (Vec3 ℚ)) (p : Vec3 ℚ) (n : ℕ)
    (h : tryPlace minDistance placed cands = some (p, n)) :
    validCandidate minDistance placed p = true ∧ 1 ≤ n ∧ n ≤ cands.length := by
  induction cands generalizing p n with
  | nil => simp [tryPlace] at h
  | cons c rest ih =>
    rw [tryPlace] at h
    by_cases hv : validCandidate minDistance placed c = true
    · rw [if_pos hv] at h
      obtain ⟨rfl, rfl⟩ : c = p ∧ 1 = n := by simpa using h
      exact ⟨hv, le_refl 1, by simp⟩
    · rw [if_neg hv] at h
      cases hrec : tryPlace minDistance placed rest with
      | none => rw [hrec] at h; simp at h
      | some pr =>
        obtain ⟨q, m⟩ := pr
        rw [hrec] at h
        simp only [Option.some.injEq, Prod.mk.injEq] at h
        obtain ⟨rfl, rfl⟩ := h
        obtain ⟨h1, h2, h3⟩ := ih q m hrec
        exact ⟨h1, by omega, by simp; omega⟩

theorem tryPlace_none_all_invalid (minDistance : ℚ) (placed : List (Vec3 ℚ))
    (cands : List (Vec3 ℚ)) (h : tryPlace minDistance placed cands = none) :
    ∀ c ∈ cands, validCandidate minDistance placed c = false := by
  induction cands with
  | nil => simp
  | cons c rest ih =>
    rw [tryPlace] at h
    by_cases hv : validCandidate minDistance placed c = true
    · rw [if_pos hv] at h; simp at h
    · rw [if_neg hv] at h
      intro d hd
      rcases List.mem_cons.mp hd with rfl | hd'
      · exact Bool.not_eq_true _ ▸ hv
      · cases hrec : tryPlace minDistance placed rest with
        | none => exact ih hrec d hd'
        | some pr =>
          obtain ⟨q, m⟩ := pr
          rw [hrec] at h
          simp at h

theorem placeOne_spec (minDistance : ℚ) (placed : List (Vec3 ℚ))
    (cands : List (Vec3 ℚ)) (fallback : Vec3 ℚ) :
    ((placeOne minDistance placed cands fallback).2.1 = false →
      validCandidate minDistance placed (placeOne minDistance placed cands fallback).1 =
        true) ∧
    ((placeOne minDistance placed cands fallback).2.1 = true →
      (placeOne minDistance placed cands fallback).1 = fallback ∧
      ∀ c ∈ cands, validCandidate minDistance placed c = false) ∧
    (placeOne minDistance placed cands fallback).2.2 ≤ cands.length := by
  unfold placeOne
  cases h : tryPlace minDistance placed cands with
  | none => simpa using tryPlace_none_all_invalid minDistance placed cands h
  | some pr =>
    obtain ⟨p, n⟩ := pr
    have hs := tryPlace_some_valid minDistance placed cands p n h
    simpa using ⟨hs.1, hs.2.2⟩

theorem buildBatch_sep_placed (minDistance : ℚ) (streams : List (List (Vec3 ℚ) × Vec3 ℚ)) :
    ∀ (placed : List (Vec3 ℚ)) (b : Vec3 ℚ × Bool × ℕ),
      b ∈ buildBatch minDistance streams placed → b.2.1 = false →
      ∀ q ∈ placed, minDistance ^ 2 ≤ b.1.distSq q := by
  induction streams with
  | nil =>
    intro placed b hb
    simp [buildBatch] at hb
  | cons s rest ih =>
    intro placed b hb hfb q hq
    obtain ⟨cands, fb⟩ := s
    simp only [buildBatch] at hb
    rcases List.mem_cons.mp hb with rfl | hb'
    · have hval := (placeOne_spec minDistance placed cands fb).1 hfb
      exact (validCandidate_iff minDistance placed _).mp hval q hq
    · exact ih (placed ++ [(placeOne minDistance placed cands fb).1]) b hb' hfb q
        (by simp [hq])

theorem buildBatch_pairwise (minDistance : ℚ) (streams : List (List (Vec3 ℚ) × Vec3 ℚ)) :
    ∀ placed : List (Vec3 ℚ),
      List.Pairwise (fun a b => b.2.1 = false → minDistance ^ 2 ≤ b.1.distSq a.1)
        (buildBatch minDistance streams placed) := by
  induction streams with
  | nil =>
    intro placed
    simp [buildBatch]
  | cons s rest ih =>
    intro placed
    obtain ⟨cands, fb⟩ := s
    simp only [buildBatch]
    refine List.Pairwise.cons ?_ (ih _)
    intro b hb hfb
    exact buildBatch_sep_placed minDistance rest _ b hb hfb _ (by simp)

theorem buildBatch_draws_le (minDistance : ℚ) (streams : List (List (Vec3 ℚ) × Vec3 ℚ))
    (maxAttempts : ℕ) (hmax : ∀ s ∈ streams, (Prod.fst s).length ≤ maxAttempts) :
    ∀ placed : List (Vec3 ℚ),
      batchDraws (buildBatch minDistance streams placed) ≤
        streams.length * maxAttempts := by
  induction streams with
  | nil =>
    intro placed
    simp [buildBatch, batchDraws]
  | cons s rest ih =>
    intro placed
    obtain ⟨cands, fb⟩ := s
    simp only [buildBatch, batchDraws, List.map_cons, List.sum_cons, List.length_cons]
    have h1 : (placeOne minDistance placed cands fb).2.2 ≤ maxAttempts :=
      le_trans (placeOne_spec minDistance placed cands fb).2.2
        (hmax (cands, fb) (by simp))
    have h2 := ih (fun s hs => hmax s (List.mem_cons_of_mem _ hs))
      (placed ++ [(placeOne minDistance placed cands fb).1])
    simp only [batchDraws] at h2
    calc (placeOne minDistance placed cands fb).2.2 +
          ((buildBatch minDistance rest
            (placed ++ [(placeOne minDistance placed cands fb).1])).map
              fun r => r.2.2).sum
        ≤ maxAttempts + rest.length * maxAttempts := Nat.add_le_add h1 h2
      _ = (rest.length + 1) * maxAttempts := by ring

/-- C5: rejection-sampled placement of a batch of gift-box scatter points
with `minDistance = 2` and `maxAttempts = 50` (candidate draws from the
radius-18 base sampler abstracted as per-element candidate streams of
length ≤ 50, the unconditional radius-22 draw as the per-element fallback):
every accepted non-fallback point has squared distance ≥ `2²` to every
previously accepted point of the batch; a fallback-flagged point is exactly
the fallback draw, taken only after every base draw failed; non-fallback
acceptance means the acceptance test passed against all previous points;
and the whole batch consumes at most `N · 50` base-sampler draws. -/
theorem giftbox_rejection_placement (streams : List (List (Vec3 ℚ) × Vec3 ℚ))
    (hmax : ∀ s ∈ streams, (Prod.fst s).length ≤ 50) :
    List.Pairwise (fun a b => b.2.1 = false → (2 : ℚ) ^ 2 ≤ Vec3.distSq b.1 a.1)
      (buildBatch 2 streams []) ∧
    batchDraws (buildBatch 2 streams []) ≤ streams.length * 50 ∧
    ∀ (placed cands : List (Vec3 ℚ)) (fb : Vec3 ℚ),
      ((placeOne 2 placed cands fb).2.1 = false →
        ∀ q ∈ placed, (2 : ℚ) ^ 2 ≤ Vec3.distSq (placeOne 2 placed cands fb).1 q) ∧
      ((placeOne 2 placed cands fb).2.1 = true →
        (placeOne 2 placed cands fb).1 = fb ∧
        ∀ c ∈ cands, validCandidate 2 placed c = false) :=
  ⟨buildBatch_pairwise 2 streams [], buildBatch_draws_le 2 streams 50 hmax [],
    fun placed cands fb =>
      ⟨fun h => (validCandidate_iff 2 placed _).mp ((placeOne_spec 2 placed cands fb).1 h),
       (placeOne_spec 2 placed cands fb).2.1⟩⟩

/-- Witness for C5 on a concrete two-element batch: the first element
accepts its first draw, the second element rejects a too-close draw
(distance 1 < 2 from the first accepted point) and accepts the next. -/
theorem giftbox_rejection_placement_witness :
    (∀ s ∈ [([(⟨0, 0, 0⟩ : Vec3 ℚ)], (⟨9, 9, 9⟩ : Vec3 ℚ)),
            ([(⟨1, 0, 0⟩ : Vec3 ℚ), ⟨5, 0, 0⟩], (⟨8, 8, 8⟩ : Vec3 ℚ))],
        (Prod.fst s).length ≤ 50) ∧
    (List.Pairwise (fun a b => b.2.1 = false → (2 : ℚ) ^ 2 ≤ Vec3.distSq b.1 a.1)
      (buildBatch 2 [([(⟨0, 0, 0⟩ : Vec3 ℚ)], (⟨9, 9, 9⟩ : Vec3 ℚ)),
            ([(⟨1, 0, 0⟩ : Vec3 ℚ), ⟨5, 0, 0⟩], (⟨8, 8, 8⟩ : Vec3 ℚ))] []) ∧
     batchDraws (buildBatch 2 [([(⟨0, 0, 0⟩ : Vec3 ℚ)], (⟨9, 9, 9⟩ : Vec3 ℚ)),
            ([(⟨1, 0, 0⟩ : Vec3 ℚ), ⟨5, 0, 0⟩], (⟨8, 8, 8⟩ : Vec3 ℚ))] []) ≤
       ([([(⟨0, 0, 0⟩ : Vec3 ℚ)], (⟨9, 9, 9⟩ : Vec3 ℚ)),
            ([(⟨1, 0, 0⟩ : Vec3 ℚ), ⟨5, 0, 0⟩], (⟨8, 8, 8⟩ : Vec3 ℚ))] :
          List (List (Vec3 ℚ) × Vec3 ℚ)).length * 50 ∧
     ∀ (placed cands : List (Vec3 ℚ)) (fb : Vec3 ℚ),
      ((placeOne 2 placed cands fb).2.1 = false →
        ∀ q ∈ placed, (2 : ℚ) ^ 2 ≤ Vec3.distSq (placeOne 2 placed cands fb).1 q) ∧
      ((placeOne 2 placed cands fb).2.1 = true →
        (placeOne 2 placed cands fb).1 = fb ∧
        ∀ c ∈ cands, validCandidate 2 placed c = false)) :=
  ⟨by decide,
    giftbox_rejection_placement
      [([(⟨0, 0, 0⟩ : Vec3 ℚ)], (⟨9, 9, 9⟩ : Vec3 ℚ)),
       ([(⟨1, 0, 0⟩ : Vec3 ℚ), ⟨5, 0, 0⟩], (⟨8, 8, 8⟩ : Vec3 ℚ))] (by decide)⟩

theorem getRandomSpherePoint_normSq (radius u v w : ℝ) :
    Vec3.normSq (getRandomSpherePoint radius u v w) = (w ^ ((1 : ℝ)/3) * radius) ^ 2 := by
  have hphi : Real.sin (Real.arccos (2 * v - 1)) ^ 2 +
      Real.cos (Real.arccos (2 * v - 1)) ^ 2 = 1 := Real.sin_sq_add_cos_sq _
  have htheta : Real.sin (2 * Real.pi * u) ^ 2 +
      Real.cos (2 * Real.pi * u) ^ 2 = 1 := Real.sin_sq_add_cos_sq _
  simp only [getRandomSpherePoint, Vec3.normSq]
  linear_combination
    (w ^ ((1 : ℝ)/3) * radius) ^ 2 * Real.sin (Real.arccos (2 * v - 1)) ^ 2 * htheta +
      (w ^ ((1 : ℝ)/3) * radius) ^ 2 * hphi

/-- The scatter sampler `getRandomSpherePoint` emits exactly the claimed
spherical parametrization — azimuth `θ = 2πu`, polar angle
`φ = arccos(2v − 1)`, radial distance `cbrt(w) · radius` — and, for random
draws `u, v, w ∈ [0,1)` and a non-negative radius, the resulting point lies
inside the closed ball of that radius (`‖p‖² ≤ radius²`). -/
theorem getRandomSpherePoint_in_ball (radius u v w : ℝ) (hw0 : 0 ≤ w) (hw1 : w < 1)
    (hr : 0 ≤ radius) :
    getRandomSpherePoint radius u v w =
      ⟨w ^ ((1 : ℝ)/3) * radius * Real.sin (Real.arccos (2 * v - 1)) *
          Real.cos (2 * Real.pi * u),
        w ^ ((1 : ℝ)/3) * radius * Real.sin (Real.arccos (2 * v - 1)) *
          Real.sin (2 * Real.pi * u),
        w ^ ((1 : ℝ)/3) * radius * Real.cos (Real.arccos (2 * v - 1))⟩ ∧
    Vec3.normSq (getRandomSpherePoint radius u v w) ≤ radius ^ 2 := by
  constructor
  · simp only [getRandomSpherePoint]
  · rw [getRandomSpherePoint_normSq]
    have hc0 : 0 ≤ w ^ ((1 : ℝ)/3) := Real.rpow_nonneg hw0 _
    have hc1 : w ^ ((1 : ℝ)/3) ≤ 1 := Real.rpow_le_one hw0 hw1.le (by norm_num)
    exact pow_le_pow_left (mul_nonneg hc0 hr) (mul_le_of_le_one_left hr hc1) 2

theorem rowCLM_apply (a b c : ℝ) (x : ℝ × ℝ × ℝ) :
    rowCLM a b c x = a * x.1 + b * x.2.1 + c * x.2.2 := by
  simp [rowCLM, smul_eq_mul]

theorem tripleCLM_apply (a₁ a₂ a₃ b₁ b₂ b₃ c₁ c₂ c₃ : ℝ) (x : ℝ × ℝ × ℝ) :
    tripleCLM a₁ a₂ a₃ b₁ b₂ b₃ c₁ c₂ c₃ x =
      (a₁ * x.1 + a₂ * x.2.1 + a₃ * x.2.2,
       b₁ * x.1 + b₂ * x.2.1 + b₃ * x.2.2,
       c₁ * x.1 + c₂ * x.2.1 + c₃ * x.2.2) := by
  simp [tripleCLM, rowCLM_apply]

theorem tripleCLM_det (a₁ a₂ a₃ b₁ b₂ b₃ c₁ c₂ c₃ : ℝ) :
    (tripleCLM a₁ a₂ a₃ b₁ b₂ b₃ c₁ c₂ c₃).det =
      a₁ * (b₂ * c₃ - b₃ * c₂) - a₂ * (b₁ * c₃ - b₃ * c₁) +
        a₃ * (b₁ * c₂ - b₂ * c₁) := by
  classical
  have hb0 : ((Basis.singleton (Fin 1) ℝ).prod (Basis.finTwoProd ℝ)) (Sum.inl 0) =
      ((1 : ℝ), (0 : ℝ), (0 : ℝ)) := by
    refine Prod.ext ?_ (Prod.ext ?_ ?_)
    · rw [Basis.prod_apply_inl_fst, Basis.singleton_apply]
    · have := (Basis.singleton (Fin 1) ℝ).prod_apply_inl_snd (Basis.finTwoProd ℝ)
        (0 : Fin 1)
      rw [this]
      rfl
    · have := (Basis.singleton (Fin 1) ℝ).prod_apply_inl_snd (Basis.finTwoProd ℝ)
        (0 : Fin 1)
      rw [this]
      rfl
  have hb1 : ((Basis.singleton (Fin 1) ℝ).prod (Basis.finTwoProd ℝ)) (Sum.inr 0) =
      ((0 : ℝ), (1 : ℝ), (0 : ℝ)) := by
    refine Prod.ext ?_ ?_
    · rw [Basis.prod_apply_inr_fst]
    · rw [Basis.prod_apply_inr_snd, Basis.finTwoProd_zero]
  have hb2 : ((Basis.singleton (Fin 1) ℝ).prod (Basis.finTwoProd ℝ)) (Sum.inr 1) =
      ((0 : ℝ), (0 : ℝ), (1 : ℝ)) := by
    refine Prod.ext ?_ ?_
    · rw [Basis.prod_apply_inr_fst]
    · rw [Basis.prod_apply_inr_snd, Basis.finTwoProd_one]
  have hlin : (tripleCLM a₁ a₂ a₃ b₁ b₂ b₃ c₁ c₂ c₃ :
      (ℝ × ℝ × ℝ) →ₗ[ℝ] (ℝ × ℝ × ℝ)) =
      Matrix.toLin ((Basis.singleton (Fin 1) ℝ).prod (Basis.finTwoProd ℝ))
        ((Basis.singleton (Fin 1) ℝ).prod (Basis.finTwoProd ℝ))
        ((!![a₁, a₂, a₃; b₁, b₂, b₃; c₁, c₂, c₃] : Matrix (Fin 3) (Fin 3) ℝ).submatrix
          finSumFinEquiv finSumFinEquiv) := by
    apply LinearMap.ext
    intro x
    rw [Matrix.toLin_apply, Fintype.sum_sum_type, Fin.sum_univ_one, Fin.sum_univ_two,
      hb0, hb1, hb2]
    simp only [Matrix.mulVec, Matrix.dotProduct, Fintype.sum_sum_type, Fin.sum_univ_one,
      Fin.sum_univ_two, Basis.prod_repr_inl, Basis.prod_repr_inr, Basis.singleton_repr,
      Basis.coe_finTwoProd_repr, Matrix.submatrix_apply, finSumFinEquiv_apply_left,
      finSumFinEquiv_apply_right]
    rw [show (Fin.castAdd 2 (0 : Fin 1)) = (0 : Fin 3) from rfl,
      show (Fin.natAdd 1 (0 : Fin 2)) = (1 : Fin 3) from rfl,
      show (Fin.natAdd 1 (1 : Fin 2)) = (2 : Fin 3) from rfl]
    simp only [ContinuousLinearMap.coe_coe, tripleCLM_apply, Matrix.cons_val_zero,
      Matrix.cons_val_one, Matrix.cons_val_two, Matrix.head_cons, Matrix.tail_cons,
      Matrix.head_cons, Prod.smul_mk, smul_eq_mul, Prod.mk_add_mk, Prod.ext_iff]
    norm_num
    constructor
    · ring
    constructor <;> ring
  calc (tripleCLM a₁ a₂ a₃ b₁ b₂ b₃ c₁ c₂ c₃).det
      = LinearMap.det
          (Matrix.toLin ((Basis.singleton (Fin 1) ℝ).prod (Basis.finTwoProd ℝ))
            ((Basis.singleton (Fin 1) ℝ).prod (Basis.finTwoProd ℝ))
            ((!![a₁, a₂, a₃; b₁, b₂, b₃; c₁, c₂, c₃] : Matrix (Fin 3) (Fin 3) ℝ).submatrix
              ⇑finSumFinEquiv ⇑finSumFinEquiv)) := by
        rw [ContinuousLinearMap.det, hlin]
    _ = ((!![a₁, a₂, a₃; b₁, b₂, b₃; c₁, c₂, c₃] : Matrix (Fin 3) (Fin 3) ℝ).submatrix
          ⇑finSumFinEquiv ⇑finSumFinEquiv :
            Matrix (Fin 1 ⊕ Fin 2) (Fin 1 ⊕ Fin 2) ℝ).det := LinearMap.det_toLin _ _
    _ = (!![a₁, a₂, a₃; b₁, b₂, b₃; c₁, c₂, c₃] : Matrix (Fin 3) (Fin 3) ℝ).det :=
        Matrix.det_submatrix_equiv_self finSumFinEquiv _
    _ = a₁ * (b₂ * c₃ - b₃ * c₂) - a₂ * (b₁ * c₃ - b₃ * c₁) +
        a₃ * (b₁ * c₂ - b₂ * c₁) := by
        simp [Matrix.det_fin_three]
        ring

theorem spherePointSmooth_hasFDerivAt (R u v w : ℝ) (hw : w ≠ 0)
    (hB : 1 - (2 * v - 1)^2 ≠ 0) :
    HasFDerivAt (spherePointSmooth R)
      (tripleCLM
        (-(w ^ ((1 : ℝ)/3) * R * Real.sqrt (1 - (2 * v - 1)^2) *
            Real.sin (2 * Real.pi * u) * (2 * Real.pi)))
        (w ^ ((1 : ℝ)/3) * R *
          (-(2 * (2 * v - 1)^1 * 2) / (2 * Real.sqrt (1 - (2 * v - 1)^2))) *
          Real.cos (2 * Real.pi * u))
        ((1 : ℝ)/3 * w ^ ((1 : ℝ)/3 - 1) * R * Real.sqrt (1 - (2 * v - 1)^2) *
          Real.cos (2 * Real.pi * u))
        (w ^ ((1 : ℝ)/3) * R * Real.sqrt (1 - (2 * v - 1)^2) *
          Real.cos (2 * Real.pi * u) * (2 * Real.pi))
        (w ^ ((1 : ℝ)/3) * R *
          (-(2 * (2 * v - 1)^1 * 2) / (2 * Real.sqrt (1 - (2 * v - 1)^2))) *
          Real.sin (2 * Real.pi * u))
        ((1 : ℝ)/3 * w ^ ((1 : ℝ)/3 - 1) * R * Real.sqrt (1 - (2 * v - 1)^2) *
          Real.sin (2 * Real.pi * u))
        0
        (w ^ ((1 : ℝ)/3) * R * 2)
        ((1 : ℝ)/3 * w ^ ((1 : ℝ)/3 - 1) * R * (2 * v - 1)))
      (u, v, w) := by
  have hfst : HasFDerivAt (fun p : ℝ × ℝ × ℝ => p.1)
      (ContinuousLinearMap.fst ℝ ℝ (ℝ × ℝ)) (u, v, w) := hasFDerivAt_fst
  have hsndfst : HasFDerivAt (fun p : ℝ × ℝ × ℝ => p.2.1)
      ((ContinuousLinearMap.fst ℝ ℝ ℝ).comp (ContinuousLinearMap.snd ℝ ℝ (ℝ × ℝ)))
      (u, v, w) := hasFDerivAt_fst.comp _ hasFDerivAt_snd
  have hsndsnd : HasFDerivAt (fun p : ℝ × ℝ × ℝ => p.2.2)
      ((ContinuousLinearMap.snd ℝ ℝ ℝ).comp (ContinuousLinearMap.snd ℝ ℝ (ℝ × ℝ)))
      (u, v, w) := hasFDerivAt_snd.comp _ hasFDerivAt_snd
  -- the three univariate pieces
  have hA : HasFDerivAt (fun p : ℝ × ℝ × ℝ => p.2.2 ^ ((1 : ℝ)/3) * R)
      ((((1 : ℝ)/3 * w ^ ((1 : ℝ)/3 - 1)) •
        ((ContinuousLinearMap.snd ℝ ℝ ℝ).comp
          (ContinuousLinearMap.snd ℝ ℝ (ℝ × ℝ)))).smulRight R) (u, v, w) := by
    exact ((Real.hasDerivAt_rpow_const (p := (1 : ℝ)/3)
      (Or.inl hw)).comp_hasFDerivAt _ hsndsnd).mul_const' R
  have hBd : HasFDerivAt (fun p : ℝ × ℝ × ℝ => Real.sqrt (1 - (2 * p.2.1 - 1)^2))
      ((-(2 * (2 * v - 1)^1 * 2) / (2 * Real.sqrt (1 - (2 * v - 1)^2))) •
        ((ContinuousLinearMap.fst ℝ ℝ ℝ).comp (ContinuousLinearMap.snd ℝ ℝ (ℝ × ℝ))))
      (u, v, w) := by
    have hg : HasDerivAt (fun t : ℝ => 1 - (2 * t - 1)^2) (-(2 * (2 * v - 1)^1 * 2)) v := by
      have h1 : HasDerivAt (fun t : ℝ => 2 * t - 1) 2 v := by
        simpa using ((hasDerivAt_id v).const_mul (2 : ℝ)).sub_const 1
      simpa using (h1.pow 2).const_sub 1
    exact (hg.sqrt hB).comp_hasFDerivAt _ hsndfst
  have hcu : HasFDerivAt (fun p : ℝ × ℝ × ℝ => Real.cos (2 * Real.pi * p.1))
      ((-Real.sin (2 * Real.pi * u) * (2 * Real.pi)) •
        ContinuousLinearMap.fst ℝ ℝ (ℝ × ℝ)) (u, v, w) := by
    have h1 : HasDerivAt (fun t : ℝ => 2 * Real.pi * t) (2 * Real.pi) u := by
      simpa using (hasDerivAt_id u).const_mul (2 * Real.pi)
    exact ((Real.hasDerivAt_cos (2 * Real.pi * u)).comp u h1).comp_hasFDerivAt _ hfst
  have hsu : HasFDerivAt (fun p : ℝ × ℝ × ℝ => Real.sin (2 * Real.pi * p.1))
      ((Real.cos (2 * Real.pi * u) * (2 * Real.pi)) •
        ContinuousLinearMap.fst ℝ ℝ (ℝ × ℝ)) (u, v, w) := by
    have h1 : HasDerivAt (fun t : ℝ => 2 * Real.pi * t) (2 * Real.pi) u := by
      simpa using (hasDerivAt_id u).const_mul (2 * Real.pi)
    exact ((Real.hasDerivAt_sin (2 * Real.pi * u)).comp u h1).comp_hasFDerivAt _ hfst
  have hC : HasFDerivAt (fun p : ℝ × ℝ × ℝ => 2 * p.2.1 - 1)
      ((2 : ℝ) • ((ContinuousLinearMap.fst ℝ ℝ ℝ).comp
        (ContinuousLinearMap.snd ℝ ℝ (ℝ × ℝ)))) (u, v, w) := by
    have h1 : HasDerivAt (fun t : ℝ => 2 * t - 1) 2 v := by
      simpa using ((hasDerivAt_id v).const_mul (2 : ℝ)).sub_const 1
    exact h1.comp_hasFDerivAt _ hsndfst
  have hAB := hA.mul hBd
  have hX := hAB.mul hcu
  have hY := hAB.mul hsu
  have hZ := hA.mul hC
  have hfull := hX.prod (hY.prod hZ)
  convert hfull using 1
  apply ContinuousLinearMap.ext
  intro x
  rw [tripleCLM_apply]
  simp only [ContinuousLinearMap.prod_apply, ContinuousLinearMap.add_apply,
    ContinuousLinearMap.smul_apply, ContinuousLinearMap.coe_smul', Pi.smul_apply,
    ContinuousLinearMap.smulRight_apply, ContinuousLinearMap.comp_apply,
    ContinuousLinearMap.coe_fst', ContinuousLinearMap.coe_snd', smul_eq_mul,
    Prod.ext_iff]
  refine ⟨by ring, by ring, by ring⟩

theorem sphere_det_algebra (P Q s C cu su t : ℝ) (hs : s ≠ 0) (hsq : s^2 = 1 - C^2)
    (htrig : su^2 + cu^2 = 1) :
    -(P * s * su * t) * (P * (-(2 * C^1 * 2) / (2 * s)) * su * (Q * C) -
        Q * s * su * (P * 2)) -
      P * (-(2 * C^1 * 2) / (2 * s)) * cu * (P * s * cu * t * (Q * C) -
        Q * s * su * 0) +
      Q * s * cu * (P * s * cu * t * (P * 2) -
        P * (-(2 * C^1 * 2) / (2 * s)) * su * 0) = 2 * P^2 * Q * t := by
  field_simp
  linear_combination (8 * P^2 * s^2 * t * Q * (C^2 + s^2)) * htrig +
    (8 * P^2 * s^2 * t * Q) * hsq

theorem spherePointSmooth_det (R u v w : ℝ) (hw : 0 < w) (hv0 : 0 < v) (hv1 : v < 1) :
    (tripleCLM
        (-(w ^ ((1 : ℝ)/3) * R * Real.sqrt (1 - (2 * v - 1)^2) *
            Real.sin (2 * Real.pi * u) * (2 * Real.pi)))
        (w ^ ((1 : ℝ)/3) * R *
          (-(2 * (2 * v - 1)^1 * 2) / (2 * Real.sqrt (1 - (2 * v - 1)^2))) *
          Real.cos (2 * Real.pi * u))
        ((1 : ℝ)/3 * w ^ ((1 : ℝ)/3 - 1) * R * Real.sqrt (1 - (2 * v - 1)^2) *
          Real.cos (2 * Real.pi * u))
        (w ^ ((1 : ℝ)/3) * R * Real.sqrt (1 - (2 * v - 1)^2) *
          Real.cos (2 * Real.pi * u) * (2 * Real.pi))
        (w ^ ((1 : ℝ)/3) * R *
          (-(2 * (2 * v - 1)^1 * 2) / (2 * Real.sqrt (1 - (2 * v - 1)^2))) *
          Real.sin (2 * Real.pi * u))
        ((1 : ℝ)/3 * w ^ ((1 : ℝ)/3 - 1) * R * Real.sqrt (1 - (2 * v - 1)^2) *
          Real.sin (2 * Real.pi * u))
        0
        (w ^ ((1 : ℝ)/3) * R * 2)
        ((1 : ℝ)/3 * w ^ ((1 : ℝ)/3 - 1) * R * (2 * v - 1))).det =
      4 * Real.pi * R^3 / 3 := by
  have hC2 : 0 < 1 - (2 * v - 1)^2 := by nlinarith
  have hBpos : 0 < Real.sqrt (1 - (2 * v - 1)^2) := Real.sqrt_pos.mpr hC2
  have hBsq : Real.sqrt (1 - (2 * v - 1)^2) ^ 2 = 1 - (2 * v - 1)^2 :=
    Real.sq_sqrt hC2.le
  have htrig : Real.sin (2 * Real.pi * u)^2 + Real.cos (2 * Real.pi * u)^2 = 1 :=
    Real.sin_sq_add_cos_sq _
  have h23 : (w ^ ((1 : ℝ)/3))^2 * (w ^ ((1 : ℝ)/3 - 1)) = 1 := by
    rw [← Real.rpow_natCast (w ^ ((1 : ℝ)/3)) 2, ← Real.rpow_mul hw.le,
      ← Real.rpow_add hw]
    norm_num
  have key := sphere_det_algebra (w ^ ((1 : ℝ)/3) * R)
    ((1 : ℝ)/3 * w ^ ((1 : ℝ)/3 - 1) * R) (Real.sqrt (1 - (2 * v - 1)^2)) (2 * v - 1)
    (Real.cos (2 * Real.pi * u)) (Real.sin (2 * Real.pi * u)) (2 * Real.pi)
    hBpos.ne' (by linear_combination hBsq) htrig
  rw [tripleCLM_det]
  linear_combination key + (4 * Real.pi * R^3 / 3) * h23

theorem angle_eq_of_cos_sin_eq (x y : ℝ) (hx0 : 0 < x) (hx2 : x < 2 * Real.pi)
    (hy0 : 0 < y) (hy2 : y < 2 * Real.pi) (hc : Real.cos x = Real.cos y)
    (hs : Real.sin x = Real.sin y) : x = y := by
  have hnp : ∀ t : ℝ, Real.pi ≤ t → t < 2 * Real.pi → Real.sin t ≤ 0 := by
    intro t h1 h2
    have h3 : Real.sin (t - Real.pi + Real.pi) = -Real.sin (t - Real.pi) :=
      Real.sin_add_pi _
    have h4 : 0 ≤ Real.sin (t - Real.pi) :=
      Real.sin_nonneg_of_nonneg_of_le_pi (by linarith) (by linarith)
    have h5 : t - Real.pi + Real.pi = t := by ring
    rw [h5] at h3
    linarith
  rcases lt_trichotomy (Real.sin x) 0 with hneg | hzero | hpos
  · have hxpi : Real.pi < x := by
      by_contra h
      push_neg at h
      exact absurd (Real.sin_nonneg_of_nonneg_of_le_pi hx0.le h) (not_le.mpr hneg)
    have hypi : Real.pi < y := by
      by_contra h
      push_neg at h
      rw [hs] at hneg
      exact absurd (Real.sin_nonneg_of_nonneg_of_le_pi hy0.le h) (not_le.mpr hneg)
    have h1 : Real.cos (2 * Real.pi - x) = Real.cos (2 * Real.pi - y) := by
      rw [Real.cos_two_pi_sub, Real.cos_two_pi_sub, hc]
    have h2 := Real.injOn_cos (Set.mem_Icc.mpr ⟨by linarith, by linarith⟩)
      (Set.mem_Icc.mpr ⟨by linarith, by linarith⟩) h1
    linarith
  · have hπ := Real.pi_pos
    have hxeq : x = Real.pi := by
      rcases Real.sin_eq_zero_iff.mp hzero with ⟨n, hn⟩
      have h0 : (0 : ℝ) < (n : ℝ) * Real.pi := by rw [hn]; exact hx0
      have h2 : (n : ℝ) * Real.pi < 2 * Real.pi := by rw [hn]; exact hx2
      have hn0 : (0 : ℝ) < (n : ℝ) := by nlinarith
      have hn2 : ((n : ℝ)) < 2 := by nlinarith
      have hn0' : 0 < n := by exact_mod_cast hn0
      have hn2' : n < 2 := by exact_mod_cast hn2
      have : n = 1 := by omega
      rw [this] at hn
      simpa using hn.symm
    have hyeq : y = Real.pi := by
      have hzero' : Real.sin y = 0 := by rw [← hs]; exact hzero
      rcases Real.sin_eq_zero_iff.mp hzero' with ⟨n, hn⟩
      have h0 : (0 : ℝ) < (n : ℝ) * Real.pi := by rw [hn]; exact hy0
      have h2 : (n : ℝ) * Real.pi < 2 * Real.pi := by rw [hn]; exact hy2
      have hn0 : (0 : ℝ) < (n : ℝ) := by nlinarith
      have hn2 : ((n : ℝ)) < 2 := by nlinarith
      have hn0' : 0 < n := by exact_mod_cast hn0
      have hn2' : n < 2 := by exact_mod_cast hn2
      have : n = 1 := by omega
      rw [this] at hn
      simpa using hn.symm
    rw [hxeq, hyeq]
  · have hxpi : x < Real.pi := by
      by_contra h
      push_neg at h
      exact absurd hpos (not_lt.mpr (hnp x h hx2))
    have hypi : y < Real.pi := by
      by_contra h
      push_neg at h
      rw [hs] at hpos
      exact absurd hpos (not_lt.mpr (hnp y h hy2))
    exact Real.injOn_cos (Set.mem_Icc.mpr ⟨hx0.le, hxpi.le⟩)
      (Set.mem_Icc.mpr ⟨hy0.le, hypi.le⟩) hc

theorem spherePointSmooth_normSq (R u v w : ℝ) (hv0 : 0 ≤ v) (hv1 : v ≤ 1) :
    (spherePointSmooth R (u, v, w)).1^2 + (spherePointSmooth R (u, v, w)).2.1^2 +
      (spherePointSmooth R (u, v, w)).2.2^2 = (w ^ ((1 : ℝ)/3) * R)^2 := by
  have hBsq : Real.sqrt (1 - (2 * v - 1)^2) ^ 2 = 1 - (2 * v - 1)^2 :=
    Real.sq_sqrt (by nlinarith)
  have htrig : Real.sin (2 * Real.pi * u)^2 + Real.cos (2 * Real.pi * u)^2 = 1 :=
    Real.sin_sq_add_cos_sq _
  simp only [spherePointSmooth]
  linear_combination
    ((w ^ ((1 : ℝ)/3) * R)^2 * Real.sqrt (1 - (2 * v - 1)^2) ^ 2) * htrig +
      ((w ^ ((1 : ℝ)/3) * R)^2) * hBsq

set_option maxHeartbeats 1000000 in
theorem spherePointSmooth_injOn (R : ℝ) (hR : 0 < R) :
    Set.InjOn (spherePointSmooth R)
      (Set.Ioo (0 : ℝ) 1 ×ˢ Set.Ioo (0 : ℝ) 1 ×ˢ Set.Ioo (0 : ℝ) 1) := by
  rintro ⟨u, v, w⟩ ⟨hu, hv, hw⟩ ⟨u', v', w'⟩ ⟨hu', hv', hw'⟩ heq
  simp only [Set.mem_Ioo] at hu hv hw hu' hv' hw'
  have hπ := Real.pi_pos
  have hw3 : (0 : ℝ) < w ^ ((1 : ℝ)/3) := Real.rpow_pos_of_pos hw.1 _
  have hw3' : (0 : ℝ) < w' ^ ((1 : ℝ)/3) := Real.rpow_pos_of_pos hw'.1 _
  have hA : (0 : ℝ) < w ^ ((1 : ℝ)/3) * R := mul_pos hw3 hR
  have hA' : (0 : ℝ) < w' ^ ((1 : ℝ)/3) * R := mul_pos hw3' hR
  have hA2 : (w ^ ((1 : ℝ)/3) * R)^2 = (w' ^ ((1 : ℝ)/3) * R)^2 := by
    rw [← spherePointSmooth_normSq R u v w hv.1.le hv.2.le, heq,
      spherePointSmooth_normSq R u' v' w' hv'.1.le hv'.2.le]
  have hAeq : w ^ ((1 : ℝ)/3) * R = w' ^ ((1 : ℝ)/3) * R := by
    nlinarith [sq_nonneg (w ^ ((1 : ℝ)/3) * R - w' ^ ((1 : ℝ)/3) * R),
      sq_nonneg (w ^ ((1 : ℝ)/3) * R + w' ^ ((1 : ℝ)/3) * R)]
  have hweq : w = w' := by
    have h3 : (w ^ ((1 : ℝ)/3)) ^ (3 : ℕ) = w := by
      rw [← Real.rpow_natCast (w ^ ((1 : ℝ)/3)) 3, ← Real.rpow_mul hw.1.le]
      norm_num
    have h3' : (w' ^ ((1 : ℝ)/3)) ^ (3 : ℕ) = w' := by
      rw [← Real.rpow_natCast (w' ^ ((1 : ℝ)/3)) 3, ← Real.rpow_mul hw'.1.le]
      norm_num
    have hc : w ^ ((1 : ℝ)/3) = w' ^ ((1 : ℝ)/3) :=
      mul_right_cancel₀ hR.ne' hAeq
    rw [← h3, ← h3', hc]
  subst hweq
  simp only [spherePointSmooth, Prod.mk.injEq] at heq
  obtain ⟨hX, hY, hZ⟩ := heq
  have hveq : v = v' := by
    have hC : 2 * v - 1 = 2 * v' - 1 := mul_left_cancel₀ hA.ne' hZ
    linarith
  subst hveq
  have hs : (0 : ℝ) < Real.sqrt (1 - (2 * v - 1)^2) :=
    Real.sqrt_pos.mpr (by nlinarith [mul_pos hv.1 (by linarith : (0 : ℝ) < 1 - v)])
  have hAs : w ^ ((1 : ℝ)/3) * R * Real.sqrt (1 - (2 * v - 1)^2) ≠ 0 :=
    (mul_pos hA hs).ne'
  have hcu : Real.cos (2 * Real.pi * u) = Real.cos (2 * Real.pi * u') :=
    mul_left_cancel₀ hAs hX
  have hsu : Real.sin (2 * Real.pi * u) = Real.sin (2 * Real.pi * u') :=
    mul_left_cancel₀ hAs hY
  have hue : 2 * Real.pi * u = 2 * Real.pi * u' := by
    apply angle_eq_of_cos_sin_eq _ _ _ _ _ _ hcu hsu
    · nlinarith [mul_pos hπ hu.1]
    · nlinarith [mul_pos hπ (by linarith : (0 : ℝ) < 1 - u)]
    · nlinarith [mul_pos hπ hu'.1]
    · nlinarith [mul_pos hπ (by linarith : (0 : ℝ) < 1 - u')]
  have : u = u' := by
    have h2π : (2 : ℝ) * Real.pi ≠ 0 := by positivity
    exact mul_left_cancel₀ h2π hue
  simp [this]

theorem continuous_spherePointSmooth (R : ℝ) : Continuous (spherePointSmooth R) := by
  have hm3 : Continuous fun p : ℝ × ℝ × ℝ => p.2.2 ^ ((1 : ℝ)/3) :=
    (Real.continuous_rpow_const (by norm_num)).comp (continuous_snd.comp continuous_snd)
  have hmC : Continuous fun p : ℝ × ℝ × ℝ => 2 * p.2.1 - 1 :=
    (continuous_const.mul (continuous_fst.comp continuous_snd)).sub continuous_const
  have hms : Continuous fun p : ℝ × ℝ × ℝ => Real.sqrt (1 - (2 * p.2.1 - 1)^2) :=
    Real.continuous_sqrt.comp (continuous_const.sub (hmC.pow 2))
  have hmc : Continuous fun p : ℝ × ℝ × ℝ => Real.cos (2 * Real.pi * p.1) :=
    Real.continuous_cos.comp (continuous_const.mul continuous_fst)
  have hmsin : Continuous fun p : ℝ × ℝ × ℝ => Real.sin (2 * Real.pi * p.1) :=
    Real.continuous_sin.comp (continuous_const.mul continuous_fst)
  unfold spherePointSmooth
  exact ((((hm3.mul continuous_const).mul hms).mul hmc).prod_mk
    ((((hm3.mul continuous_const).mul hms).mul hmsin).prod_mk
      ((hm3.mul continuous_const).mul hmC)))

theorem measurable_spherePointSmooth (R : ℝ) : Measurable (spherePointSmooth R) :=
  (continuous_spherePointSmooth R).measurable

theorem volume_slice_sq_zero (a : ℝ) : volume {z : ℝ | z^2 = a} = 0 := by
  apply measure_mono_null (t := {Real.sqrt a, -Real.sqrt a})
  · intro z hz
    simp only [Set.mem_setOf_eq] at hz
    rcases le_or_lt 0 a with ha | ha
    · rcases le_or_lt 0 z with hz0 | hz0
      · left
        rw [← hz, Real.sqrt_sq hz0]
      · right
        have : Real.sqrt a = -z := by
          rw [← hz, show z^2 = (-z)^2 by ring, Real.sqrt_sq (by linarith)]
        rw [this]
        simp
    · exfalso
      nlinarith [sq_nonneg z]
  · exact ((Set.countable_singleton _).insert _).measure_zero _

theorem volume_circle_zero (c : ℝ) :
    (volume : Measure (ℝ × ℝ)) {q : ℝ × ℝ | q.1^2 + q.2^2 = c} = 0 := by
  have hmeas : MeasurableSet {q : ℝ × ℝ | q.1^2 + q.2^2 = c} := by
    have hcont : Continuous fun q : ℝ × ℝ => q.1^2 + q.2^2 := by continuity
    exact hcont.measurable (measurableSet_singleton c)
  rw [Measure.volume_eq_prod _ _, Measure.prod_apply hmeas]
  have hslice : ∀ y : ℝ, (Set.preimage (Prod.mk y) {q : ℝ × ℝ | q.1^2 + q.2^2 = c}) =
      {z : ℝ | z^2 = c - y^2} := by
    intro y
    ext z
    simp only [Set.mem_preimage, Set.mem_setOf_eq]
    constructor <;> intro h <;> linarith
  have : (fun y => volume (Set.preimage (Prod.mk y) {q : ℝ × ℝ | q.1^2 + q.2^2 = c})) =
      fun _ => 0 := by
    funext y
    rw [hslice y]
    exact volume_slice_sq_zero _
  rw [this]
  simp

theorem volume_sphere3_zero (c : ℝ) :
    (volume : Measure (ℝ × ℝ × ℝ)) {p : ℝ × ℝ × ℝ | p.1^2 + p.2.1^2 + p.2.2^2 = c} = 0 := by
  have hmeas : MeasurableSet {p : ℝ × ℝ × ℝ | p.1^2 + p.2.1^2 + p.2.2^2 = c} := by
    have hcont : Continuous fun p : ℝ × ℝ × ℝ => p.1^2 + p.2.1^2 + p.2.2^2 :=
      ((continuous_fst.pow 2).add ((continuous_fst.comp continuous_snd).pow 2)).add
        ((continuous_snd.comp continuous_snd).pow 2)
    exact hcont.measurable (measurableSet_singleton c)
  rw [Measure.volume_eq_prod _ _, Measure.prod_apply hmeas]
  have hslice : ∀ x : ℝ, (Set.preimage (Prod.mk x) {p : ℝ × ℝ × ℝ | p.1^2 + p.2.1^2 + p.2.2^2 = c}) =
      {q : ℝ × ℝ | q.1^2 + q.2^2 = c - x^2} := by
    intro x
    ext q
    simp only [Set.mem_preimage, Set.mem_setOf_eq]
    constructor <;> intro h <;> linarith
  have : (fun x => (volume : Measure (ℝ × ℝ))
      (Set.preimage (Prod.mk x) {p : ℝ × ℝ × ℝ | p.1^2 + p.2.1^2 + p.2.2^2 = c})) = fun _ => 0 := by
    funext x
    rw [hslice x]
    exact volume_circle_zero _
  rw [this]
  simp

theorem volume_snd_fst_zero (c : ℝ) :
    (volume : Measure (ℝ × ℝ × ℝ)) {p : ℝ × ℝ × ℝ | p.2.1 = c} = 0 := by
  have hset : {p : ℝ × ℝ × ℝ | p.2.1 = c} =
      (Set.univ : Set ℝ) ×ˢ (({c} : Set ℝ) ×ˢ (Set.univ : Set ℝ)) := by
    ext p
    constructor
    · intro h
      exact ⟨Set.mem_univ _, h, Set.mem_univ _⟩
    · rintro ⟨-, h, -⟩
      exact h
  rw [hset, Measure.volume_eq_prod _ _, Measure.prod_prod,
    Measure.volume_eq_prod _ _, Measure.prod_prod]
  simp

theorem exists_angle (a b : ℝ) (hb : b ≠ 0) (hab : a^2 + b^2 = 1) :
    ∃ θ : ℝ, 0 < θ ∧ θ < 2 * Real.pi ∧ Real.cos θ = a ∧ Real.sin θ = b := by
  have hπ := Real.pi_pos
  have hb2 : 0 < b^2 := by positivity
  have ha1 : -1 < a := by nlinarith
  have ha2 : a < 1 := by nlinarith
  have hsq : Real.sqrt (1 - a^2) = |b| := by
    rw [show 1 - a^2 = b^2 by linarith, Real.sqrt_sq_eq_abs]
  have harc_pos : 0 < Real.arccos a := Real.arccos_pos.mpr ha2
  have harc_lt : Real.arccos a < Real.pi := by
    simp only [Real.arccos]
    have := Real.neg_pi_div_two_lt_arcsin.mpr ha1
    linarith
  rcases lt_or_gt_of_ne hb with hbneg | hbpos
  · refine ⟨2 * Real.pi - Real.arccos a, by linarith, by linarith, ?_, ?_⟩
    · rw [Real.cos_two_pi_sub]
      exact Real.cos_arccos ha1.le ha2.le
    · rw [Real.sin_two_pi_sub, Real.sin_arccos, hsq, abs_of_neg hbneg]
      ring
  · refine ⟨Real.arccos a, harc_pos, by linarith, ?_, ?_⟩
    · exact Real.cos_arccos ha1.le ha2.le
    · rw [Real.sin_arccos, hsq, abs_of_pos hbpos]

theorem mem_image_spherePointSmooth (R : ℝ) (hR : 0 < R) (q : ℝ × ℝ × ℝ)
    (hy : q.2.1 ≠ 0) (hball : q.1^2 + q.2.1^2 + q.2.2^2 < R^2) :
    q ∈ spherePointSmooth R ''
      (Set.Ioo (0 : ℝ) 1 ×ˢ Set.Ioo (0 : ℝ) 1 ×ˢ Set.Ioo (0 : ℝ) 1) := by
  obtain ⟨x, y, z⟩ := q
  simp only at hy hball
  have hy2 : 0 < y^2 := by positivity
  have hsum : 0 < x^2 + y^2 + z^2 := by nlinarith [sq_nonneg x, sq_nonneg z]
  set n := Real.sqrt (x^2 + y^2 + z^2) with hn_def
  have hn : 0 < n := Real.sqrt_pos.mpr hsum
  have hn2 : n^2 = x^2 + y^2 + z^2 := Real.sq_sqrt hsum.le
  have hnR : n < R := by nlinarith
  have hm_pos : 0 < x^2 + y^2 := by nlinarith [sq_nonneg x]
  set m := Real.sqrt (x^2 + y^2) with hm_def
  have hm : 0 < m := Real.sqrt_pos.mpr hm_pos
  have hm2 : m^2 = x^2 + y^2 := Real.sq_sqrt hm_pos.le
  -- the angle
  have hab : (x/m)^2 + (y/m)^2 = 1 := by
    field_simp
    linarith [hm2]
  obtain ⟨θ, hθ0, hθ2, hθc, hθs⟩ := exists_angle (x/m) (y/m) (by positivity) hab
  have hπ := Real.pi_pos
  -- the input point
  refine ⟨(θ / (2 * Real.pi), (z/n + 1)/2, (n/R)^(3 : ℕ)), ⟨?_, ?_, ?_⟩, ?_⟩
  · constructor
    · positivity
    · rw [div_lt_one (by positivity)]
      exact hθ2
  · have hzn : z^2 < n^2 := by nlinarith
    have hzl : -n < z := by nlinarith
    have hzu : z < n := by nlinarith
    constructor
    · have : (-1 : ℝ) < z/n := by
        rw [lt_div_iff hn]
        linarith
      simp only [Set.mem_Ioo]
      linarith
    · have : z/n < 1 := (div_lt_one hn).mpr hzu
      linarith
  · constructor
    · positivity
    · exact pow_lt_one (by positivity) ((div_lt_one hR).mpr hnR) (by norm_num)
  · -- evaluation
    have h2pu : 2 * Real.pi * (θ / (2 * Real.pi)) = θ := by
      field_simp
    have hw13 : ((n/R)^(3 : ℕ) : ℝ) ^ ((1 : ℝ)/3) = n/R := by
      rw [← Real.rpow_natCast (n/R) 3, ← Real.rpow_mul (by positivity)]
      norm_num
    have hA : ((n/R)^(3 : ℕ) : ℝ) ^ ((1 : ℝ)/3) * R = n := by
      rw [hw13]
      field_simp
    have hC : 2 * ((z/n + 1)/2) - 1 = z/n := by ring
    have hs_eq : Real.sqrt (1 - (2 * ((z/n + 1)/2) - 1)^2) = m/n := by
      rw [hC]
      have h1 : 1 - (z/n)^2 = (x^2 + y^2)/n^2 := by
        field_simp
        linarith [hn2]
      rw [h1, Real.sqrt_div hm_pos.le, Real.sqrt_sq hn.le, hm_def]
    simp only [spherePointSmooth]
    rw [hA, hs_eq, hC, h2pu, hθc, hθs]
    have hPne : n ≠ 0 := hn.ne'
    have hMne : m ≠ 0 := hm.ne'
    refine Prod.ext ?_ (Prod.ext ?_ ?_)
    · field_simp
    · field_simp
    · field_simp

theorem volume_fst_zero (c : ℝ) :
    (volume : Measure (ℝ × ℝ × ℝ)) {p : ℝ × ℝ × ℝ | p.1 = c} = 0 := by
  have hset : {p : ℝ × ℝ × ℝ | p.1 = c} =
      (({c} : Set ℝ) ×ˢ (Set.univ : Set (ℝ × ℝ))) := by
    ext p
    constructor
    · intro h
      exact ⟨h, Set.mem_univ _⟩
    · rintro ⟨h, -⟩
      exact h
  rw [hset, Measure.volume_eq_prod _ _, Measure.prod_prod]
  simp

theorem volume_snd_snd_zero (c : ℝ) :
    (volume : Measure (ℝ × ℝ × ℝ)) {p : ℝ × ℝ × ℝ | p.2.2 = c} = 0 := by
  have hset : {p : ℝ × ℝ × ℝ | p.2.2 = c} =
      ((Set.univ : Set ℝ) ×ˢ ((Set.univ : Set ℝ) ×ˢ ({c} : Set ℝ))) := by
    ext p
    constructor
    · intro h
      exact ⟨Set.mem_univ _, Set.mem_univ _, h⟩
    · rintro ⟨-, -, h⟩
      exact h
  rw [hset, Measure.volume_eq_prod _ _, Measure.prod_prod,
    Measure.volume_eq_prod _ _, Measure.prod_prod]
  simp

theorem image_subset_ball (R : ℝ) (hR : 0 < R) :
    spherePointSmooth R ''
      (Set.Ioo (0 : ℝ) 1 ×ˢ Set.Ioo (0 : ℝ) 1 ×ˢ Set.Ioo (0 : ℝ) 1) ⊆
      {q : ℝ × ℝ × ℝ | q.1^2 + q.2.1^2 + q.2.2^2 < R^2} := by
  rintro q ⟨⟨u, v, w⟩, ⟨hu, hv, hw⟩, rfl⟩
  simp only [Set.mem_Ioo] at hu hv hw
  have hn := spherePointSmooth_normSq R u v w hv.1.le hv.2.le
  have h13 : w ^ ((1 : ℝ)/3) < 1 := Real.rpow_lt_one hw.1.le hw.2 (by norm_num)
  have h13p : 0 < w ^ ((1 : ℝ)/3) := Real.rpow_pos_of_pos hw.1 _
  simp only [Set.mem_setOf_eq]
  have hlt : w ^ ((1 : ℝ)/3) * R < R := by
    nlinarith [mul_pos (sub_pos.mpr h13) hR]
  have hsq := pow_lt_pow_left hlt (by positivity : (0 : ℝ) ≤ w ^ ((1 : ℝ)/3) * R)
    (n := 2) (by norm_num)
  linarith [hn, hsq]

theorem image_ae_eq_ball (R : ℝ) (hR : 0 < R) :
    (spherePointSmooth R ''
        (Set.Ioo (0 : ℝ) 1 ×ˢ Set.Ioo (0 : ℝ) 1 ×ˢ Set.Ioo (0 : ℝ) 1)) =ᵐ[volume]
      {q : ℝ × ℝ × ℝ | q.1^2 + q.2.1^2 + q.2.2^2 ≤ R^2} := by
  rw [MeasureTheory.ae_eq_set]
  constructor
  · apply measure_mono_null (t := (∅ : Set (ℝ × ℝ × ℝ)))
    · intro q hq
      obtain ⟨hq1, hq2⟩ := hq
      have hin := image_subset_ball R hR hq1
      simp only [Set.mem_setOf_eq] at hin hq2
      exact absurd hin.le hq2
    · exact measure_empty
  · apply measure_mono_null
      (t := {q : ℝ × ℝ × ℝ | q.1^2 + q.2.1^2 + q.2.2^2 = R^2} ∪
        {q : ℝ × ℝ × ℝ | q.2.1 = 0})
    · intro q hq
      obtain ⟨hq1, hq2⟩ := hq
      simp only [Set.mem_setOf_eq] at hq1
      rcases eq_or_lt_of_le hq1 with heq | hlt
      · exact Or.inl heq
      · by_cases hy : q.2.1 = 0
        · exact Or.inr hy
        · exact absurd (mem_image_spherePointSmooth R hR q hy hlt) hq2
    · exact measure_union_null (volume_sphere3_zero _) (volume_snd_fst_zero _)


theorem sphereDeriv_within (R : ℝ) :
    ∀ p ∈ (Set.Ioo (0 : ℝ) 1 ×ˢ Set.Ioo (0 : ℝ) 1 ×ˢ Set.Ioo (0 : ℝ) 1),
      HasFDerivWithinAt (spherePointSmooth R) (sphereDeriv R p)
        (Set.Ioo (0 : ℝ) 1 ×ˢ Set.Ioo (0 : ℝ) 1 ×ˢ Set.Ioo (0 : ℝ) 1) p := by
  rintro ⟨u, v, w⟩ ⟨hu, hv, hw⟩
  simp only [Set.mem_Ioo] at hu hv hw
  exact (spherePointSmooth_hasFDerivAt R u v w hw.1.ne'
    (by nlinarith : 1 - (2 * v - 1)^2 ≠ 0)).hasFDerivWithinAt

theorem volume_IooBox :
    (volume : Measure (ℝ × ℝ × ℝ))
      (Set.Ioo (0 : ℝ) 1 ×ˢ Set.Ioo (0 : ℝ) 1 ×ˢ Set.Ioo (0 : ℝ) 1) = 1 := by
  rw [Measure.volume_eq_prod _ _, Measure.prod_prod,
    Measure.volume_eq_prod _ _, Measure.prod_prod, Real.volume_Ioo]
  simp

theorem IcoBox_ae_eq_IooBox :
    (Set.Ico (0 : ℝ) 1 ×ˢ Set.Ico (0 : ℝ) 1 ×ˢ Set.Ico (0 : ℝ) 1 :
        Set (ℝ × ℝ × ℝ)) =ᵐ[volume]
      (Set.Ioo (0 : ℝ) 1 ×ˢ Set.Ioo (0 : ℝ) 1 ×ˢ Set.Ioo (0 : ℝ) 1) := by
  rw [MeasureTheory.ae_eq_set]
  constructor
  · apply measure_mono_null (t := {p : ℝ × ℝ × ℝ | p.1 = 0} ∪
      ({p : ℝ × ℝ × ℝ | p.2.1 = 0} ∪ {p : ℝ × ℝ × ℝ | p.2.2 = 0}))
    · rintro ⟨u, v, w⟩ ⟨⟨hu, hv, hw⟩, hnot⟩
      simp only [Set.mem_Ico] at hu hv hw
      by_cases hu0 : u = 0
      · exact Or.inl hu0
      by_cases hv0 : v = 0
      · exact Or.inr (Or.inl hv0)
      by_cases hw0 : w = 0
      · exact Or.inr (Or.inr hw0)
      exact absurd ⟨Set.mem_Ioo.mpr ⟨lt_of_le_of_ne hu.1 (Ne.symm hu0), hu.2⟩,
        Set.mem_Ioo.mpr ⟨lt_of_le_of_ne hv.1 (Ne.symm hv0), hv.2⟩,
        Set.mem_Ioo.mpr ⟨lt_of_le_of_ne hw.1 (Ne.symm hw0), hw.2⟩⟩ hnot
    · exact measure_union_null (volume_fst_zero 0)
        (measure_union_null (volume_snd_fst_zero 0) (volume_snd_snd_zero 0))
  · apply measure_mono_null (t := (∅ : Set (ℝ × ℝ × ℝ)))
    · rintro ⟨u, v, w⟩ ⟨⟨hu, hv, hw⟩, hnot⟩
      simp only [Set.mem_Ioo] at hu hv hw
      exact absurd ⟨Set.mem_Ico.mpr ⟨hu.1.le, hu.2⟩,
        Set.mem_Ico.mpr ⟨hv.1.le, hv.2⟩,
        Set.mem_Ico.mpr ⟨hw.1.le, hw.2⟩⟩ hnot
    · exact measure_empty

theorem spherePointSmooth_map_Ioo (R : ℝ) (hR : 0 < R) :
    Measure.map (spherePointSmooth R)
        (volume.restrict (Set.Ioo (0 : ℝ) 1 ×ˢ Set.Ioo (0 : ℝ) 1 ×ˢ Set.Ioo (0 : ℝ) 1)) =
      (ENNReal.ofReal (4 * Real.pi * R^3 / 3))⁻¹ •
        volume.restrict {q : ℝ × ℝ × ℝ | q.1^2 + q.2.1^2 + q.2.2^2 ≤ R^2} := by
  have hπ := Real.pi_pos
  have hcpos : 0 < 4 * Real.pi * R^3 / 3 :=
    div_pos (mul_pos (mul_pos (by norm_num) hπ) (pow_pos hR 3)) (by norm_num)
  have hc0 : ENNReal.ofReal (4 * Real.pi * R^3 / 3) ≠ 0 :=
    (ENNReal.ofReal_pos.mpr hcpos).ne'
  have hctop : ENNReal.ofReal (4 * Real.pi * R^3 / 3) ≠ ⊤ := ENNReal.ofReal_ne_top
  have hboxmeas : MeasurableSet
      (Set.Ioo (0 : ℝ) 1 ×ˢ Set.Ioo (0 : ℝ) 1 ×ˢ Set.Ioo (0 : ℝ) 1) :=
    measurableSet_Ioo.prod (measurableSet_Ioo.prod measurableSet_Ioo)
  have hdens : (fun p : ℝ × ℝ × ℝ => ENNReal.ofReal |(sphereDeriv R p).det|)
      =ᵐ[volume.restrict
          (Set.Ioo (0 : ℝ) 1 ×ˢ Set.Ioo (0 : ℝ) 1 ×ˢ Set.Ioo (0 : ℝ) 1)]
      (fun _ => ENNReal.ofReal (4 * Real.pi * R^3 / 3)) := by
    filter_upwards [MeasureTheory.self_mem_ae_restrict hboxmeas] with p hp
    obtain ⟨u, v, w⟩ := p
    obtain ⟨hu, hv, hw⟩ := hp
    simp only [Set.mem_Ioo] at hu hv hw
    have hdet : (sphereDeriv R (u, v, w)).det = 4 * Real.pi * R^3 / 3 := by
      simpa only [sphereDeriv] using spherePointSmooth_det R u v w hw.1 hv.1 hv.2
    rw [hdet, abs_of_pos hcpos]
  have key := MeasureTheory.map_withDensity_abs_det_fderiv_eq_addHaar volume hboxmeas
    (sphereDeriv_within R) (spherePointSmooth_injOn R hR)
    (measurable_spherePointSmooth R)
  rw [MeasureTheory.withDensity_congr_ae hdens, MeasureTheory.withDensity_const,
    Measure.map_smul,
    Measure.restrict_congr_set (image_ae_eq_ball R hR)] at key
  have hsplit : Measure.map (spherePointSmooth R)
      (volume.restrict (Set.Ioo (0 : ℝ) 1 ×ˢ Set.Ioo (0 : ℝ) 1 ×ˢ Set.Ioo (0 : ℝ) 1)) =
      (ENNReal.ofReal (4 * Real.pi * R^3 / 3))⁻¹ •
        (ENNReal.ofReal (4 * Real.pi * R^3 / 3) •
          Measure.map (spherePointSmooth R)
            (volume.restrict
              (Set.Ioo (0 : ℝ) 1 ×ˢ Set.Ioo (0 : ℝ) 1 ×ˢ Set.Ioo (0 : ℝ) 1))) := by
    rw [smul_smul, ENNReal.inv_mul_cancel hc0 hctop, one_smul]
  rw [hsplit, key]

theorem volume_ball3_eq (R : ℝ) (hR : 0 < R) :
    (volume : Measure (ℝ × ℝ × ℝ))
        {q : ℝ × ℝ × ℝ | q.1^2 + q.2.1^2 + q.2.2^2 ≤ R^2} =
      ENNReal.ofReal (4 * Real.pi * R^3 / 3) := by
  have hπ := Real.pi_pos
  have hcpos : 0 < 4 * Real.pi * R^3 / 3 :=
    div_pos (mul_pos (mul_pos (by norm_num) hπ) (pow_pos hR 3)) (by norm_num)
  have hc0 : ENNReal.ofReal (4 * Real.pi * R^3 / 3) ≠ 0 :=
    (ENNReal.ofReal_pos.mpr hcpos).ne'
  have hctop : ENNReal.ofReal (4 * Real.pi * R^3 / 3) ≠ ⊤ := ENNReal.ofReal_ne_top
  have h1 : Measure.map (spherePointSmooth R)
      (volume.restrict (Set.Ioo (0 : ℝ) 1 ×ˢ Set.Ioo (0 : ℝ) 1 ×ˢ Set.Ioo (0 : ℝ) 1))
        Set.univ =
      volume.restrict (Set.Ioo (0 : ℝ) 1 ×ˢ Set.Ioo (0 : ℝ) 1 ×ˢ Set.Ioo (0 : ℝ) 1)
        Set.univ := by
    rw [Measure.map_apply (measurable_spherePointSmooth R) MeasurableSet.univ,
      Set.preimage_univ]
  rw [spherePointSmooth_map_Ioo R hR, Measure.smul_apply,
    Measure.restrict_apply_univ, Measure.restrict_apply_univ, volume_IooBox,
    smul_eq_mul] at h1
  have h2 : ENNReal.ofReal (4 * Real.pi * R^3 / 3) *
      ((ENNReal.ofReal (4 * Real.pi * R^3 / 3))⁻¹ *
        volume {q : ℝ × ℝ × ℝ | q.1^2 + q.2.1^2 + q.2.2^2 ≤ R^2}) =
      ENNReal.ofReal (4 * Real.pi * R^3 / 3) * 1 := by rw [h1]
  rwa [← mul_assoc, ENNReal.mul_inv_cancel hc0 hctop, one_mul, mul_one] at h2

theorem raw_eq_smooth (R u v w : ℝ) (hv0 : 0 ≤ v) (hv1 : v ≤ 1) :
    (w ^ ((1 : ℝ)/3) * R * Real.sin (Real.arccos (2 * v - 1)) *
        Real.cos (2 * Real.pi * u),
      w ^ ((1 : ℝ)/3) * R * Real.sin (Real.arccos (2 * v - 1)) *
        Real.sin (2 * Real.pi * u),
      w ^ ((1 : ℝ)/3) * R * Real.cos (Real.arccos (2 * v - 1))) =
      spherePointSmooth R (u, v, w) := by
  have hs : Real.sin (Real.arccos (2 * v - 1)) = Real.sqrt (1 - (2 * v - 1)^2) := by
    rw [Real.sin_arccos]
  have hc : Real.cos (Real.arccos (2 * v - 1)) = 2 * v - 1 :=
    Real.cos_arccos (by linarith) (by linarith)
  simp only [spherePointSmooth]
  rw [hs, hc]

theorem spherePointProd_eq_smooth (R : ℝ) (p : ℝ × ℝ × ℝ)
    (hv0 : 0 ≤ p.2.1) (hv1 : p.2.1 ≤ 1) :
    spherePointProd R p = spherePointSmooth R p := by
  obtain ⟨u, v, w⟩ := p
  have h := raw_eq_smooth R u v w hv0 hv1
  simpa only [spherePointProd, getRandomSpherePoint] using h

theorem spherePointProd_map_Ico (R : ℝ) (hR : 0 < R) :
    Measure.map (spherePointProd R)
        (volume.restrict (Set.Ico (0 : ℝ) 1 ×ˢ Set.Ico (0 : ℝ) 1 ×ˢ Set.Ico (0 : ℝ) 1)) =
      (ENNReal.ofReal (4 * Real.pi * R^3 / 3))⁻¹ •
        volume.restrict {q : ℝ × ℝ × ℝ | q.1^2 + q.2.1^2 + q.2.2^2 ≤ R^2} := by
  have hboxmeas : MeasurableSet
      (Set.Ioo (0 : ℝ) 1 ×ˢ Set.Ioo (0 : ℝ) 1 ×ˢ Set.Ioo (0 : ℝ) 1) :=
    measurableSet_Ioo.prod (measurableSet_Ioo.prod measurableSet_Ioo)
  rw [Measure.restrict_congr_set IcoBox_ae_eq_IooBox]
  have hae : spherePointProd R =ᵐ[volume.restrict
      (Set.Ioo (0 : ℝ) 1 ×ˢ Set.Ioo (0 : ℝ) 1 ×ˢ Set.Ioo (0 : ℝ) 1)]
      spherePointSmooth R := by
    filter_upwards [MeasureTheory.self_mem_ae_restrict hboxmeas] with p hp
    obtain ⟨hu, hv, hw⟩ := hp
    simp only [Set.mem_Ioo] at hv
    exact spherePointProd_eq_smooth R p hv.1.le hv.2.le
  rw [Measure.map_congr hae]
  exact spherePointSmooth_map_Ioo R hR

/-- C7: for every radius `R > 0` the scatter sampler `getRandomSpherePoint`
returns exactly the point with azimuth `θ = 2πu`, polar angle
`φ = arccos(2v − 1)` and radial distance `cbrt(w)·R`; every returned point
for draws `w ∈ [0,1)` lies inside the closed ball of radius `R`; and the
pushforward of the uniform input measure on the draw cube `[0,1)³` under
the sampler is the uniform-by-volume probability measure on that closed
ball (Lebesgue measure restricted to the ball, normalized by the ball's
volume `4πR³/3`). -/
theorem scatter_sampler_uniform_ball (R : ℝ) (hR : 0 < R) :
    (∀ u v w : ℝ,
      getRandomSpherePoint R u v w =
        ⟨w ^ ((1 : ℝ)/3) * R * Real.sin (Real.arccos (2 * v - 1)) *
            Real.cos (2 * Real.pi * u),
          w ^ ((1 : ℝ)/3) * R * Real.sin (Real.arccos (2 * v - 1)) *
            Real.sin (2 * Real.pi * u),
          w ^ ((1 : ℝ)/3) * R * Real.cos (Real.arccos (2 * v - 1))⟩) ∧
    (∀ u v w : ℝ, 0 ≤ w → w < 1 →
      Vec3.normSq (getRandomSpherePoint R u v w) ≤ R ^ 2) ∧
    volume {q : ℝ × ℝ × ℝ | q.1^2 + q.2.1^2 + q.2.2^2 ≤ R^2} =
      ENNReal.ofReal (4 * Real.pi * R^3 / 3) ∧
    Measure.map (spherePointProd R)
        (volume.restrict (Set.Ico (0 : ℝ) 1 ×ˢ Set.Ico (0 : ℝ) 1 ×ˢ Set.Ico (0 : ℝ) 1)) =
      (ENNReal.ofReal (4 * Real.pi * R^3 / 3))⁻¹ •
        volume.restrict {q : ℝ × ℝ × ℝ | q.1^2 + q.2.1^2 + q.2.2^2 ≤ R^2} := by
  refine ⟨?_, ?_, volume_ball3_eq R hR, spherePointProd_map_Ico R hR⟩
  · intro u v w
    simp only [getRandomSpherePoint]
  · intro u v w hw0 hw1
    exact (getRandomSpherePoint_in_ball R u v w hw0 hw1 hR.le).2

/-- Witness for C7 at radius `1`: the hypothesis `0 < R` is discharged at
`R = 1` and the full conclusion is obtained from the theorem itself. -/
theorem scatter_sampler_uniform_ball_witness :
    (0 : ℝ) < 1 ∧
    ((∀ u v w : ℝ,
      getRandomSpherePoint 1 u v w =
        ⟨w ^ ((1 : ℝ)/3) * 1 * Real.sin (Real.arccos (2 * v - 1)) *
            Real.cos (2 * Real.pi * u),
          w ^ ((1 : ℝ)/3) * 1 * Real.sin (Real.arccos (2 * v - 1)) *
            Real.sin (2 * Real.pi * u),
          w ^ ((1 : ℝ)/3) * 1 * Real.cos (Real.arccos (2 * v - 1))⟩) ∧
    (∀ u v w : ℝ, 0 ≤ w → w < 1 →
      Vec3.normSq (getRandomSpherePoint 1 u v w) ≤ (1 : ℝ) ^ 2) ∧
    volume {q : ℝ × ℝ × ℝ | q.1^2 + q.2.1^2 + q.2.2^2 ≤ (1 : ℝ)^2} =
      ENNReal.ofReal (4 * Real.pi * (1 : ℝ)^3 / 3) ∧
    Measure.map (spherePointProd 1)
        (volume.restrict (Set.Ico (0 : ℝ) 1 ×ˢ Set.Ico (0 : ℝ) 1 ×ˢ Set.Ico (0 : ℝ) 1)) =
      (ENNReal.ofReal (4 * Real.pi * (1 : ℝ)^3 / 3))⁻¹ •
        volume.restrict {q : ℝ × ℝ × ℝ | q.1^2 + q.2.1^2 + q.2.2^2 ≤ (1 : ℝ)^2}) :=
  ⟨one_pos, scatter_sampler_uniform_ball 1 one_pos⟩
